import Mathlib

/-!
# Verification of the Exepy `dirstream` directory-streaming codec

Shallow embedding of the `dirstream` package (file-header codec, chunk
codec, manifest codec, encoder, decoder, filesystem walker) over byte
lists (`List Nat`, each element `< 256`), together with theorems settling
the specification claims.

Byte buffers are `List Nat`.  Go's `binary.BigEndian.PutUintN` /
`copy` writes into a pre-allocated buffer are modelled by `setBytes`,
`binary.BigEndian.UintN` reads by `sliceGet`/`beVal`.

The file is organised as definitions first, theorems second.
-/

namespace Dirstream

/-! ## Byte-buffer primitives (definitions) -/

/-- `n` zero bytes: Go's `make([]byte, n)`. -/
def zeros (n : Nat) : List Nat := List.replicate n 0

/-- Big-endian byte encoding of `v` in `w` bytes, most significant first.
Models `binary.BigEndian.PutUint16/32/64`. -/
def beBytes : Nat → Nat → List Nat
  | 0, _ => []
  | w + 1, v => (v / 256 ^ w) % 256 :: beBytes w v

/-- Big-endian value of a byte list.  Models `binary.BigEndian.Uint16/32/64`. -/
def beVal (l : List Nat) : Nat := l.foldl (fun a b => a * 256 + b) 0

/-- Go slice expression `buf[off : off+n]`. -/
def sliceGet (l : List Nat) (off n : Nat) : List Nat := (l.drop off).take n

/-- Overwrite `data.length` bytes of `buf` starting at `off`: models Go's
`copy(buf[off:off+len(data)], data)` and the `PutUintN(buf[off:..], v)`
family (which write into the buffer in place). -/
def setBytes (buf : List Nat) (off : Nat) (data : List Nat) : List Nat :=
  buf.take off ++ data ++ buf.drop (off + data.length)

/-- Single-byte store `buf[off] = b`. -/
def setByte (buf : List Nat) (off : Nat) (b : Nat) : List Nat :=
  setBytes buf off [b]

/-- Go byte indexing `buf[n]` (our buffers are long enough everywhere it
is used, so the default is never taken). -/
def byteAt (l : List Nat) (n : Nat) : Nat := (l.drop n).headD 0

/-! ## CRC32 (IEEE), as in Go's `hash/crc32.ChecksumIEEE` (definitions) -/

/-- Reflected IEEE polynomial used by `hash/crc32` (`crc32.IEEE`). -/
def crc32Poly : Nat := 0xEDB88320

/-- One bit step of the reflected CRC32: shift right, conditionally xor
the polynomial when the low bit is set. -/
def crc32Round (c : Nat) : Nat := (c >>> 1) ^^^ crc32Poly * (c &&& 1)

/-- Absorb one byte: xor into the low byte, then eight bit rounds. -/
def crc32Byte (c b : Nat) : Nat := crc32Round^[8] (c ^^^ b)

/-- `crc32.ChecksumIEEE`: pre/post-inverted reflected CRC32 of a byte list. -/
def crc32 (l : List Nat) : Nat := (l.foldl crc32Byte 0xFFFFFFFF) ^^^ 0xFFFFFFFF

/-! ## File headers: shared data model (definitions)

Go struct `fileHeader` (identical in every codec variant).  Strings are
byte lists; Go's `uint32`/`uint64`/`byte` fields are `Nat` with the bound
recorded in `GoValid`; `int64` is `Int` with the two's-complement range. -/

structure FileHeader where
  Version : Nat
  FilePath : List Nat
  FileSize : Nat
  FileMode : Nat
  ModTime : Int
  FileType : Nat
  LinkTarget : List Nat
  deriving DecidableEq, Repr

def fileTypeRegular : Nat := 0
def fileTypeDirectory : Nat := 1
def fileTypeSymlink : Nat := 2

/-- Bounds implied by the Go field types (`uint32`, `uint64`, `int64`,
`byte`, `string` of bytes). -/
def FileHeader.GoValid (fh : FileHeader) : Prop :=
  fh.Version < 2 ^ 32 ∧ fh.FileSize < 2 ^ 64 ∧ fh.FileMode < 2 ^ 32 ∧
  -2 ^ 63 ≤ fh.ModTime ∧ fh.ModTime < 2 ^ 63 ∧ fh.FileType < 256 ∧
  (∀ b ∈ fh.FilePath, b < 256) ∧ (∀ b ∈ fh.LinkTarget, b < 256)

instance (fh : FileHeader) : Decidable fh.GoValid := by
  unfold FileHeader.GoValid; infer_instance

/-- Go's `*(*uint64)(unsafe.Pointer(&m))` / `uint64(m)`: the two's-complement
bit pattern of an `int64` as an unsigned value. -/
def toUInt64 (m : Int) : Nat := (m % (2 ^ 64 : Int)).toNat

/-- Reading a `uint64` bit pattern back as an `int64`. -/
def toInt64 (u : Nat) : Int := if u < 2 ^ 63 then (u : Int) else (u : Int) - 2 ^ 64

/-- The file-header magic number `0x49525353` ("IRSS"). -/
def fileHeaderMagicNumber : Nat := 0x49525353

/-- Fixed header size (`headerSize = 512`). -/
def headerSize : Nat := 512

/-- A NUL-terminated 256-byte path field: the path, its NUL terminator,
and the remaining zeroes of the 256-byte region. -/
def pathField (path : List Nat) : List Nat := path ++ 0 :: zeros (255 - path.length)

/-- A 128-byte link-target field, written only for symlinks. -/
def linkField (fh : FileHeader) : List Nat :=
  if fh.FileType = fileTypeSymlink then
    fh.LinkTarget ++ 0 :: zeros (127 - fh.LinkTarget.length)
  else zeros 128

inductive HeaderErr where
  | shortRead
  | crcMismatch
  | badMagic
  deriving DecidableEq, Repr

/-! ## The CRC-protected 512-byte header codec (definitions)

Second `fileHeader` codec in `src/unnamed/part_004` (`writeHeader` /
`readHeader` with `hash/crc32`).  Layout (offsets as in the Go source):
magic 0..3, version 4..7, NUL-terminated path 8..263, file size 264..271,
file mode 272..275, mod time 276..283, file type 284, link target
285..412 (symlink only), reserved 413..507 (zero), CRC32 508..511. -/

namespace HeaderCrc

/-- The first 508 bytes of the header (everything the CRC covers), fields
at the offsets of the Go `writeHeader`; each write targets a disjoint
region of the zeroed 512-byte buffer, so the buffer is the concatenation
of the fields in offset order. -/
def headerBody (fh : FileHeader) : List Nat :=
  beBytes 4 fileHeaderMagicNumber ++
    (beBytes 4 fh.Version ++
      (pathField fh.FilePath ++
        (beBytes 8 fh.FileSize ++
          (beBytes 4 fh.FileMode ++
            (beBytes 8 (toUInt64 fh.ModTime) ++
              (fh.FileType :: (linkField fh ++ zeros 95)))))))

/-- The full 512 bytes: body, then `crc32.ChecksumIEEE(headerBytes[:508])`
stored big-endian at 508..511. -/
def headerBytes (fh : FileHeader) : List Nat :=
  headerBody fh ++ beBytes 4 (crc32 (headerBody fh))

/-- `writeHeader`: fails when the path is 256 bytes or longer, or (for
symlinks) the target is 128 bytes or longer; otherwise emits the 512
bytes. -/
def writeHeader (fh : FileHeader) : Option (List Nat) :=
  if 256 ≤ fh.FilePath.length then none
  else if fh.FileType = fileTypeSymlink ∧ 128 ≤ fh.LinkTarget.length then none
  else some (headerBytes fh)

/-- `readHeader`: reads exactly 512 bytes, verifies CRC then magic, and
decodes the fields (path and link target are the prefixes up to the first
NUL of their fields). -/
def readHeader (s : List Nat) : Except HeaderErr FileHeader :=
  if s.length < headerSize then .error .shortRead
  else
    let hb := s.take headerSize
    if beVal (sliceGet hb 508 4) ≠ crc32 (hb.take 508) then .error .crcMismatch
    else if beVal (sliceGet hb 0 4) ≠ fileHeaderMagicNumber then .error .badMagic
    else
      let ft := byteAt hb 284
      .ok
        { Version := beVal (sliceGet hb 4 4)
          FilePath := (sliceGet hb 8 256).takeWhile (fun b => b != 0)
          FileSize := beVal (sliceGet hb 264 8)
          FileMode := beVal (sliceGet hb 272 4)
          ModTime := toInt64 (beVal (sliceGet hb 276 8))
          FileType := ft
          LinkTarget :=
            if ft = fileTypeSymlink then
              (sliceGet hb 285 128).takeWhile (fun b => b != 0)
            else [] }

end HeaderCrc

/-! ## The plain (no-CRC) 512-byte header codec (definitions)

`writeHeader` / `readHeader` of `src/dirstream/fileHeader.go`.  This
variant writes the NUL-terminated path at bytes 8..263 but the file size
at bytes 260..267 — the two regions overlap, so the writes are modelled
literally, in program order, with `setBytes` on the zeroed buffer. -/

namespace HeaderPlain

/-- The sequence of stores of `writeHeader` (`fileHeader.go` lines 47-75),
in program order: magic at 0, version at 4, path at 8 with its NUL
terminator, file size at 260, file mode at 268, mod time at 272, file
type at 280, and, for symlinks, the NUL-terminated link target at 281. -/
def writeBody (fh : FileHeader) : List Nat :=
  let b1 := setBytes (zeros 512) 0 (beBytes 4 fileHeaderMagicNumber)
  let b2 := setBytes b1 4 (beBytes 4 fh.Version)
  let b3 := setBytes b2 8 fh.FilePath
  let b4 := setByte b3 (8 + fh.FilePath.length) 0
  let b5 := setBytes b4 260 (beBytes 8 fh.FileSize)
  let b6 := setBytes b5 268 (beBytes 4 fh.FileMode)
  let b7 := setBytes b6 272 (beBytes 8 (toUInt64 fh.ModTime))
  let b8 := setByte b7 280 fh.FileType
  if fh.FileType = fileTypeSymlink then
    setByte (setBytes b8 281 fh.LinkTarget) (281 + fh.LinkTarget.length) 0
  else b8

/-- `writeHeader`: rejects paths of 256 bytes or more and (for symlinks)
targets of 128 bytes or more, otherwise emits the 512-byte buffer. -/
def writeHeader (fh : FileHeader) : Option (List Nat) :=
  if 256 ≤ fh.FilePath.length then none
  else if fh.FileType = fileTypeSymlink ∧ 128 ≤ fh.LinkTarget.length then none
  else some (writeBody fh)

/-- `readHeader`: reads exactly 512 bytes, validates the magic number
(there is no CRC in this variant), and decodes the fields — in
particular the path is read from bytes 8..263 up to the first NUL. -/
def readHeader (s : List Nat) : Except HeaderErr FileHeader :=
  if s.length < headerSize then .error .shortRead
  else
    let hb := s.take headerSize
    if beVal (sliceGet hb 0 4) ≠ fileHeaderMagicNumber then .error .badMagic
    else
      let ft := byteAt hb 280
      .ok
        { Version := beVal (sliceGet hb 4 4)
          FilePath := (sliceGet hb 8 256).takeWhile (fun b => b != 0)
          FileSize := beVal (sliceGet hb 260 8)
          FileMode := beVal (sliceGet hb 268 4)
          ModTime := toInt64 (beVal (sliceGet hb 272 8))
          FileType := ft
          LinkTarget :=
            if ft = fileTypeSymlink then
              (sliceGet hb 281 128).takeWhile (fun b => b != 0)
            else [] }

end HeaderPlain

/-! ## The chunk codec (definitions)

`src/dirstream/chunk.go`: a chunk is a 12-byte header (4-byte magic
`0x9ABCDEFF`, 8-byte big-endian length) followed by `length` payload
bytes. -/

/-- Chunk magic number (`chunkMagicNumber` in `chunk.go`). -/
def chunkMagicNumber : Nat := 0x9ABCDEFF

/-- 4 bytes of magic plus 8 bytes of length. -/
def chunkHeaderSize : Nat := 12

/-- Default chunk size if not specified. -/
def DefaultChunkSize : Nat := 4096

inductive ChunkErr where
  | shortHeader
  | badMagic (got : Nat)
  | badLength (len : Nat)
  | shortData
  deriving DecidableEq, Repr

/-- The chunk frame a writer emits for a payload: header then data. -/
def chunkBytes (payload : List Nat) : List Nat :=
  beBytes 4 chunkMagicNumber ++ (beBytes 8 payload.length ++ payload)

/-- `readChunks`: reads chunks until `remaining` (the expected size not
yet read) is exhausted; each iteration reads a 12-byte chunk header,
validates the magic, rejects a declared length above `chunkSize` before
touching the payload, then reads the payload.  Returns the accumulated
payload and the rest of the stream. -/
def readChunks (chunkSize : Nat) (s : List Nat) (remaining : Nat) :
    Except ChunkErr (List Nat × List Nat) :=
  if remaining = 0 then .ok ([], s)
  else if _h12 : s.length < chunkHeaderSize then .error .shortHeader
  else
    let hdr := s.take chunkHeaderSize
    let magic := beVal (sliceGet hdr 0 4)
    if magic ≠ chunkMagicNumber then .error (.badMagic magic)
    else
      let len := beVal (sliceGet hdr 4 8)
      if chunkSize < len then .error (.badLength len)
      else
        let rest := s.drop chunkHeaderSize
        if rest.length < len then .error .shortData
        else
          match readChunks chunkSize (rest.drop len) (remaining - len) with
          | .ok (data, s') => .ok (rest.take len ++ data, s')
          | .error e => .error e
  termination_by s.length
  decreasing_by
    simp only [List.length_drop, chunkHeaderSize] at *
    omega

/-! ## The manifest codec (definitions)

`src/dirstream/manifest.go` (the CRC-protected variant): a 16-byte
header (4-byte magic `0x4D414E49`, 4-byte version, 8-byte entry count),
one variable-length record per entry, a 4-byte trailer magic, and a
4-byte CRC32 over everything preceding it. -/

def manifestMagicNumber : Nat := 0x4D414E49
def manifestVersion : Nat := 1

structure ManifestEntry where
  HeaderOffset : Nat
  FileSize : Nat
  FileType : Nat
  FilePath : List Nat
  deriving DecidableEq, Repr

/-- Bounds implied by the Go field types of `ManifestEntry`. -/
def ManifestEntry.GoValid (e : ManifestEntry) : Prop :=
  e.HeaderOffset < 2 ^ 64 ∧ e.FileSize < 2 ^ 64 ∧ e.FileType < 256 ∧
  ∀ b ∈ e.FilePath, b < 256

instance (e : ManifestEntry) : Decidable e.GoValid := by
  unfold ManifestEntry.GoValid; infer_instance

/-- One serialised entry: 8 B offset, 8 B size, 1 B type, 2 B path length
(Go computes `uint16(len(pathBytes))`, truncating modulo `2^16`), then
the path bytes. -/
def entryBytes (e : ManifestEntry) : List Nat :=
  beBytes 8 e.HeaderOffset ++
    (beBytes 8 e.FileSize ++
      (e.FileType :: (beBytes 2 (e.FilePath.length % 2 ^ 16) ++ e.FilePath)))

/-- The entries, serialised in order. -/
def entriesBytes : List ManifestEntry → List Nat
  | [] => []
  | e :: es => entryBytes e ++ entriesBytes es

/-- All manifest bytes before the CRC: header, entries, trailer magic. -/
def manifestBody (entries : List ManifestEntry) : List Nat :=
  beBytes 4 manifestMagicNumber ++
    (beBytes 4 manifestVersion ++
      (beBytes 8 entries.length ++
        (entriesBytes entries ++ beBytes 4 manifestMagicNumber)))

/-- `writeManifest`: the single contiguous buffer the encoder writes —
body then big-endian CRC32 over the body. -/
def writeManifest (entries : List ManifestEntry) : List Nat :=
  manifestBody entries ++ beBytes 4 (crc32 (manifestBody entries))

inductive ManifestErr where
  | tooShort
  | crcMismatch
  | badMagic (got : Nat)
  | badVersion (got : Nat)
  | entryIncomplete (i : Nat)
  | pathIncomplete (i : Nat)
  | trailerMissing
  | badTrailer (got : Nat)
  | extraData
  deriving DecidableEq, Repr

/-- Prepend a parsed entry to the result of parsing the remaining
entries (the `entries[i] = ...` accumulation of the Go loop). -/
def entryCons (e : ManifestEntry) :
    Except ManifestErr (List ManifestEntry × List Nat) →
      Except ManifestErr (List ManifestEntry × List Nat)
  | .ok (es, rem) => .ok (e :: es, rem)
  | .error err => .error err

/-- The entry-parsing loop of `readManifest`: Go checks
`offset+19 > len(buf)-4` before each fixed part and
`offset+pathLen > len(buf)-4` before each path; with `rest` the bytes
from `offset` on (trailer and CRC included), those conditions are
`rest.length < 23` and `(rest.drop 19).length < pathLen + 4`. -/
def parseEntries (i : Nat) (rest : List Nat) :
    Nat → Except ManifestErr (List ManifestEntry × List Nat)
  | 0 => .ok ([], rest)
  | n + 1 =>
    if rest.length < 19 + 4 then .error (.entryIncomplete i)
    else
      let fixed := rest.take 19
      let headerOffset := beVal (sliceGet fixed 0 8)
      let fileSize := beVal (sliceGet fixed 8 8)
      let fileType := byteAt fixed 16
      let pathLen := beVal (sliceGet fixed 17 2)
      let rest' := rest.drop 19
      if rest'.length < pathLen + 4 then .error (.pathIncomplete i)
      else
        entryCons ⟨headerOffset, fileSize, fileType, rest'.take pathLen⟩
          (parseEntries (i + 1) (rest'.drop pathLen) n)

/-- After the entries are parsed: check the trailer magic and that
exactly the 4 CRC bytes remain. -/
def manifestFinish :
    Except ManifestErr (List ManifestEntry × List Nat) →
      Except ManifestErr (List ManifestEntry)
  | .error e => .error e
  | .ok (entries, rem) =>
    if rem.length < 8 then .error .trailerMissing
    else if beVal (sliceGet rem 0 4) ≠ manifestMagicNumber then
      .error (.badTrailer (beVal (sliceGet rem 0 4)))
    else if rem.length ≠ 8 then .error .extraData
    else .ok entries

/-- `readManifest`: consumes the whole manifest buffer, verifies the CRC
(over all but the last 4 bytes), the magic, the version, parses
`entry_count` entries, then checks the trailer magic and that only the
4-byte CRC remains. -/
def readManifest (buf : List Nat) : Except ManifestErr (List ManifestEntry) :=
  if buf.length < 24 then .error .tooShort
  else if beVal (sliceGet buf (buf.length - 4) 4) ≠
      crc32 (buf.take (buf.length - 4)) then .error .crcMismatch
  else if beVal (sliceGet buf 0 4) ≠ manifestMagicNumber then
    .error (.badMagic (beVal (sliceGet buf 0 4)))
  else if beVal (sliceGet buf 4 4) ≠ manifestVersion then
    .error (.badVersion (beVal (sliceGet buf 4 4)))
  else
    manifestFinish (parseEntries 0 (buf.drop 16) (beVal (sliceGet buf 8 8)))

/-! ## Lexical path handling (definitions)

Models of `strings.Contains` / `strings.HasPrefix` and of the lexical
path functions `path/filepath.Clean`, `Join` and `IsAbs` for Unix
(separator `/`), as used by `sanitizePath` in
`src/dirstream/filesystem.go`. -/

/-- `strings.Contains(s, sub)`. -/
def strContains (s sub : String) : Bool := decide (sub.data <:+: s.data)

/-- `strings.HasPrefix(s, pre)`. -/
def strHasPrefix (s pre : String) : Bool := pre.data.isPrefixOf s.data

/-- `filepath.IsAbs` on Unix: the path starts with `/`. -/
def isAbs (p : String) : Bool := strHasPrefix p "/"

/-- The element-stack loop of `filepath.Clean`: drop empty and `.`
elements, resolve `..` against the previous element when possible (a
rooted path may not climb above the root; an unrooted path keeps leading
`..`s).  The stack holds the output elements in reverse. -/
def cleanStack (rooted : Bool) : List String → List String → List String
  | stack, [] => stack.reverse
  | stack, seg :: rest =>
    if seg = "" ∨ seg = "." then cleanStack rooted stack rest
    else if seg = ".." then
      match stack with
      | top :: stack' =>
        if top = ".." then cleanStack rooted (".." :: top :: stack') rest
        else cleanStack rooted stack' rest
      | [] =>
        if rooted then cleanStack rooted [] rest
        else cleanStack rooted [".."] rest
    else cleanStack rooted (seg :: stack) rest

/-- Splitting a character list at every `/` (the behaviour of
`strings.Split(p, "/")` on the underlying bytes). -/
def splitSlash : List Char → List (List Char)
  | [] => [[]]
  | c :: rest =>
    match splitSlash rest with
    | s :: ss => if c = '/' then [] :: s :: ss else (c :: s) :: ss
    | [] => [[]]

/-- `filepath.Clean` (Unix, lexical): split on `/`, process the element
stack, re-join; an empty result is `.` (or `/` when rooted). -/
def cleanPath (p : String) : String :=
  if p = "" then "."
  else
    let rooted := isAbs p
    let out := String.intercalate "/"
      (cleanStack rooted [] ((splitSlash p.data).map String.mk))
    if rooted then "/" ++ out
    else if out = "" then "." else out

/-- `filepath.Join(a, b)`: empty elements are dropped, then the result is
cleaned; `Join()` of only empty elements is `""`. -/
def joinPath (a b : String) : String :=
  if a = "" ∧ b = "" then ""
  else if a = "" then cleanPath b
  else if b = "" then cleanPath a
  else cleanPath (a ++ "/" ++ b)

inductive PathErr where
  | notUnderDest
  | containsDotDot
  | absolute
  deriving DecidableEq, Repr

/-- `sanitizePath` (`filesystem.go` lines 10-25): clean the destination
and append the separator, join with the candidate path, clean, and
reject when the result does not stay under the destination, still
contains `..`, or the candidate is absolute. -/
def sanitizePath (destPath filePath : String) : Except PathErr String :=
  let dest := cleanPath destPath ++ "/"
  let joined := joinPath dest filePath
  let cleaned := cleanPath joined
  if ¬ strHasPrefix cleaned dest then .error .notUnderDest
  else if strContains cleaned ".." then .error .containsDotDot
  else if isAbs filePath then .error .absolute
  else .ok cleaned

/-! ## The filesystem walker (definitions)

`BuildRelativeFileList` (`src/dirstream/filesystem.go` lines 27-59): a
depth-first walk (`filepath.WalkDir`) over a directory tree.  The tree
is modelled with children in walk order; `rel` is the relative path of
the visited entry (`.` for the root) and `path` the walked path, built
exactly as `WalkDir` builds it (the root path joined with the relative
path).  The Go callback tests every *walked path* (not the relative
path) against the exclusion substrings; a match skips the subtree
(`SkipDir`) or the file, and the root itself (`relPath == "."`) is never
appended. -/

mutual

/-- A directory-tree node: a file (or symlink — the walker treats both
as non-directory entries) or a directory with named children. -/
inductive FTree where
  | file
  | dir (children : FForest)

/-- Named children, in walk order (`filepath.WalkDir` visits directory
entries in a fixed order). -/
inductive FForest where
  | nil
  | cons (name : String) (t : FTree) (rest : FForest)

end

/-- The relative path of a child named `n` of the entry at `rel`. -/
def childRel (rel n : String) : String :=
  if rel = "." then n else rel ++ "/" ++ n

mutual

/-- One visit of the walk: test the exclusions against the walked path,
emit the relative path (except for the root), recurse into children. -/
def walkNode (ex : List String) (rel path : String) : FTree → List String
  | .file =>
    if ex.any (fun e => strContains path e) then []
    else if rel = "." then [] else [rel]
  | .dir cs =>
    if ex.any (fun e => strContains path e) then []
    else (if rel = "." then [] else [rel]) ++ walkChildren ex rel path cs

def walkChildren (ex : List String) (rel path : String) :
    FForest → List String
  | .nil => []
  | .cons n c rest =>
      walkNode ex (childRel rel n) (path ++ "/" ++ n) c ++
        walkChildren ex rel path rest

end

/-- `BuildRelativeFileList rootPath tree excludes`. -/
def BuildRelativeFileList (rootPath : String) (t : FTree)
    (excludes : List String) : List String :=
  walkNode excludes "." rootPath t

mutual

/-- All entries reachable under the walk, excluding the root itself,
as (relative path, walked path) pairs in walk order. -/
def relsNode (rel path : String) : FTree → List (String × String)
  | .file => if rel = "." then [] else [(rel, path)]
  | .dir cs => (if rel = "." then [] else [(rel, path)]) ++
      relsChildren rel path cs

def relsChildren (rel path : String) :
    FForest → List (String × String)
  | .nil => []
  | .cons n c rest =>
      relsNode (childRel rel n) (path ++ "/" ++ n) c ++
        relsChildren rel path rest

end

/-- Modelled from the spec: the walker the specification describes —
"returns a list of relative paths reachable under the root, excluding
the root itself and any path containing an excluded substring" — i.e.
the exclusion test is applied to the *relative* path of each entry. -/
def specBuildRelativeFileList (rootPath : String) (t : FTree)
    (excludes : List String) : List String :=
  ((relsNode "." rootPath t).filter
    (fun rp => !excludes.any (fun e => strContains rp.1 e))).map Prod.fst

/-! ## The stream decoder (definitions)

`Decoder.Decode` and `Decoder.recover` of `src/dirstream/dirDecoder.go`,
as an effect trace over an in-memory byte stream: the full byte list
`data` plus a cursor `pos`; `io.ReadFull` consumes what is available
even when it comes up short.  Filesystem side effects (`os.MkdirAll`,
`os.OpenFile`, `file.Write`, `os.Remove`, `os.Symlink`) are recorded as
events and assumed to succeed.  `Decode` wraps its reader in
`bufio.NewReader` and hands that wrapper to `recover`; the `seekable`
flag models whether the reader `recover` receives implements
`io.Seeker` (a `*bufio.Reader` does not, so every actual call runs with
`seekable = false`). -/

/-- The constant `magicNumber` that `dirDecoder.go` validates chunk
headers against and scans for during recovery.  No file under
`src/dirstream` defines it; the repository's only definition is in the
header-codec variant `src/unnamed/part_004` (`magicNumber = 0xDEADBEEF`).
It differs from `chunkMagicNumber` (`0x9ABCDEFF`), the value the chunk
writer emits. -/
def magicNumber : Nat := 0xDEADBEEF

/-- Go `string(b)`: the bytes of `b` read as a string (byte-for-byte for
the ASCII data handled here). -/
def strOfBytes (l : List Nat) : String := String.mk (l.map Char.ofNat)

/-- `filepath.Dir`: everything up to the final `/` (cleaned); `.` when
the path has no `/`. -/
def dirOf (p : String) : String :=
  let r := p.data.reverse.dropWhile (fun c => c ≠ '/')
  if r.isEmpty then "." else cleanPath (String.mk r.reverse)

/-- A recorded filesystem side effect of the decoder. -/
inductive FsEvent where
  | mkdirAll (path : String)
  | remove (path : String)
  | symlink (target path : String)
  | create (path : String)
  | write (path : String) (data : List Nat)
  deriving DecidableEq, Repr

/-- Outcome of `Decoder.recover`: seek done (new cursor), `io.EOF` from
the scan, or the non-seekable failure (cursor after the matched byte). -/
inductive RecResult where
  | ok (pos : Nat)
  | eof
  | notSeekable (pos : Nat)
  deriving DecidableEq, Repr

/-- The scan loop of `recover` (`dirDecoder.go` lines 34-59): read one
byte at a time, shift it into the 4-byte window (which starts out
holding the magic bytes themselves), stop when the window equals
`magicNumber` — seeking back `chunkHeaderSize - 4` bytes when the reader
is a Seeker, failing otherwise; a read at end of stream returns
`io.EOF`.  The fuel equals the bytes left, so it never runs out before
the stream does. -/
def recoverLoop (seekable : Bool) (data : List Nat) :
    Nat → Nat → Nat → RecResult
  | 0, _, _ => .eof
  | fuel + 1, w, pos =>
    if pos < data.length then
      if (w % 2 ^ 24) * 2 ^ 8 + data.getD pos 0 = magicNumber then
        if seekable then .ok (pos + 1 - (chunkHeaderSize - 4))
        else .notSeekable (pos + 1)
      else
        recoverLoop seekable data fuel
          ((w % 2 ^ 24) * 2 ^ 8 + data.getD pos 0) (pos + 1)
    else .eof

/-- `Decoder.recover`, scanning from cursor `pos`. -/
def recoverFrom (seekable : Bool) (data : List Nat) (pos : Nat) : RecResult :=
  recoverLoop seekable data (data.length - pos) magicNumber pos

inductive DecodeErr where
  | headerShort
  | headerBadMagic
  | unknownFileType (path : String)
  | badChunkLength (len : Nat)
  | chunkDataShort
  | recoveryFailed
  | outOfFuel
  deriving DecidableEq, Repr

instance {ε α : Type} [DecidableEq ε] [DecidableEq α] :
    DecidableEq (Except ε α) := fun
  | .ok a, .ok b =>
    if h : a = b then isTrue (by rw [h])
    else isFalse (fun hh => h (by injection hh))
  | .ok _, .error _ => isFalse (fun h => Except.noConfusion h)
  | .error _, .ok _ => isFalse (fun h => Except.noConfusion h)
  | .error e, .error f =>
    if h : e = f then isTrue (by rw [h])
    else isFalse (fun hh => h (by injection hh))

/-- Control flow out of the per-file chunk loop: `ret` propagates a
return from `Decode` itself; `next` falls through (close the file,
continue with the next record at the given cursor). -/
inductive FileStep where
  | ret (r : Except DecodeErr Unit)
  | next (pos : Nat)
  deriving DecidableEq, Repr

/-- What `Decode` does with a `recover` outcome (identical at both call
sites, lines 114-124 and 131-141): `io.EOF` from the scan makes `Decode`
return `nil`; any other scan error is returned in strict mode and
otherwise logged, abandoning the current file (`break`); a successful
recovery also breaks to the next record. -/
def recoverOutcome (strict : Bool) : RecResult → FileStep
  | .ok p2 => .next p2
  | .eof => .ret (.ok ())
  | .notSeekable p2 =>
    if strict then .ret (.error .recoveryFailed) else .next p2

/-- The chunk loop for one regular file (`Decode` lines 108-161): while
the bytes written so far are short of the declared size, read a 12-byte
chunk header — a short read consumes the remainder and triggers recovery
at the end of the stream — validate its magic against `magicNumber`
(mismatch triggers recovery at the current cursor), require the length
to be at most the configured chunk size, then read the payload and
write it to the file.  Fuel `data.length + 1` is ample: every
continuing iteration consumes at least the 12 header bytes. -/
def chunkLoop (seekable strict : Bool) (chunkSize : Nat) (data : List Nat)
    (fpath : String) (fileSize : Nat) :
    Nat → Nat → Nat → FileStep × List FsEvent
  | 0, _, _ => (.ret (.error .outOfFuel), [])
  | fuel + 1, pos, totalRead =>
    if totalRead < fileSize then
      if pos + chunkHeaderSize ≤ data.length then
        if beVal ((data.drop pos).take 4) = magicNumber then
          let len := beVal ((data.drop (pos + 4)).take 8)
          if chunkSize < len then (.ret (.error (.badChunkLength len)), [])
          else if pos + chunkHeaderSize + len ≤ data.length then
            let res := chunkLoop seekable strict chunkSize data fpath fileSize
              fuel (pos + chunkHeaderSize + len) (totalRead + len)
            (res.1,
              .write fpath ((data.drop (pos + chunkHeaderSize)).take len)
                :: res.2)
          else (.ret (.error .chunkDataShort), [])
        else
          (recoverOutcome strict
            (recoverFrom seekable data (pos + chunkHeaderSize)), [])
      else (recoverOutcome strict (recoverFrom seekable data data.length), [])
    else (.next pos, [])

/-- The record loop of `Decode` (lines 65-164): stop cleanly at end of
stream, fail on a partial header or bad header magic, create the parent
directory of the joined path, then dispatch on the file type —
directories and symlinks carry no chunks; regular files are created and
run the chunk loop, whose outcome either returns from `Decode` or
continues at the next record.  There is no `sanitizePath` call: the
header's path is joined to the destination as it came. -/
def decodeLoop (seekable strict : Bool) (chunkSize : Nat) (dest : String)
    (data : List Nat) : Nat → Nat → Except DecodeErr Unit × List FsEvent
  | 0, _ => (.error .outOfFuel, [])
  | fuel + 1, pos =>
    if data.length ≤ pos then (.ok (), [])
    else if data.length < pos + headerSize then (.error .headerShort, [])
    else
      match HeaderPlain.readHeader ((data.drop pos).take headerSize) with
      | .error _ => (.error .headerBadMagic, [])
      | .ok fh =>
        let fullPath := joinPath dest (strOfBytes fh.FilePath)
        let ev0 := FsEvent.mkdirAll (dirOf fullPath)
        let pos1 := pos + headerSize
        if fh.FileType = fileTypeDirectory then
          let res := decodeLoop seekable strict chunkSize dest data fuel pos1
          (res.1, ev0 :: .mkdirAll fullPath :: res.2)
        else if fh.FileType = fileTypeSymlink then
          let res := decodeLoop seekable strict chunkSize dest data fuel pos1
          (res.1, ev0 :: .remove fullPath ::
            .symlink (strOfBytes fh.LinkTarget) fullPath :: res.2)
        else if fh.FileType = fileTypeRegular then
          let fres := chunkLoop seekable strict chunkSize data fullPath
            fh.FileSize (data.length + 1) pos1 0
          match fres.1 with
          | .ret r => (r, ev0 :: .create fullPath :: fres.2)
          | .next p2 =>
            let res := decodeLoop seekable strict chunkSize dest data fuel p2
            (res.1, ev0 :: .create fullPath :: (fres.2 ++ res.2))
        else (.error (.unknownFileType (strOfBytes fh.FilePath)), [ev0])

/-- `Decoder.Decode`: run the record loop from the start of the stream
with ample fuel (every record consumes at least 500 bytes net, even
after a seek back). -/
def decodeGo (seekable strict : Bool) (chunkSize : Nat) (dest : String)
    (data : List Nat) : Except DecodeErr Unit × List FsEvent :=
  decodeLoop seekable strict chunkSize dest data (data.length + 1) 0

/-! ## The stream encoder (definitions)

`Encoder.Encode` of `src/dirstream/dirEncoder.go`: the `WalkDir`
callback, modelled over the list of walked entries (metadata and, for
regular files, content).  Per entry it writes a 512-byte header and, for
regular files, the content in chunks of at most the configured size; it
accumulates a manifest entry per record, but the `WriteManifest` call
after the walk is commented out (lines 160-163), so nothing follows the
last record.  A `writeHeader` failure aborts the walk
(`CloseWithError`). -/

/-- A walked entry as the callback sees it. -/
inductive EncEntry where
  | dirE (relPath : List Nat) (mode : Nat) (mtime : Int)
  | symlinkE (relPath : List Nat) (mode : Nat) (mtime : Int)
      (target : List Nat)
  | fileE (relPath : List Nat) (mode : Nat) (mtime : Int)
      (content : List Nat)
  deriving DecidableEq, Repr

/-- The `fileHeader` the callback builds (`headerVersion = 1`; size 0 and
no link target except where the type requires them). -/
def entryHeader : EncEntry → FileHeader
  | .dirE p m t => ⟨1, p, 0, m, t, fileTypeDirectory, []⟩
  | .symlinkE p m t tgt => ⟨1, p, 0, m, t, fileTypeSymlink, tgt⟩
  | .fileE p m t c => ⟨1, p, c.length, m, t, fileTypeRegular, []⟩

/-- Successive `file.Read` results with a `chunkSize`-byte buffer: the
content in slices of at most `chunkSize` bytes, none for empty content
(`NewEncoder` forces `chunkSize > 0`; the fuel equals the content length
plus one, ample since every slice takes at least one byte). -/
def chunksOfFuel (cs : Nat) : Nat → List Nat → List (List Nat)
  | 0, _ => []
  | _, [] => []
  | fuel + 1, l => l.take cs :: chunksOfFuel cs fuel (l.drop cs)

def chunksOf (cs : Nat) (l : List Nat) : List (List Nat) :=
  chunksOfFuel cs (l.length + 1) l

/-- The bytes one entry contributes to the stream: its header block and,
for a regular file, one `chunkBytes` frame per read; `none` when
`writeHeader` rejects the entry. -/
def recordBytes (cs : Nat) (e : EncEntry) : Option (List Nat) :=
  match HeaderPlain.writeHeader (entryHeader e) with
  | none => none
  | some h =>
    match e with
    | .fileE _ _ _ c => some (h ++ ((chunksOf cs c).map chunkBytes).flatten)
    | _ => some h

/-- The walk: stream the records in order.  A header failure aborts the
walk; the Boolean records whether the walk completed. -/
def encodeRecords (cs : Nat) : List EncEntry → List Nat × Bool
  | [] => ([], true)
  | e :: rest =>
    match recordBytes cs e with
    | none => ([], false)
    | some blk =>
      let r := encodeRecords cs rest
      (blk ++ r.1, r.2)

/-- The manifest entries `Encode` accumulates and never writes: one per
record, with the offset of the record's header in the stream. -/
def manifestAcc (cs : Nat) (offset : Nat) : List EncEntry → List ManifestEntry
  | [] => []
  | e :: rest =>
    match recordBytes cs e with
    | none => []
    | some blk =>
      { HeaderOffset := offset, FileSize := (entryHeader e).FileSize,
        FileType := (entryHeader e).FileType,
        FilePath := (entryHeader e).FilePath } ::
        manifestAcc cs (offset + blk.length) rest

/-- `Encoder.Encode`: the bytes the pipe's reader sees — the records
only; after the walk the buffered writer is flushed and the pipe closed
with the manifest write commented out. -/
def encodeGo (cs : Nat) (entries : List EncEntry) : List Nat × Bool :=
  encodeRecords cs entries

/-- Modelled from the spec: "one record per entry (header plus, for
regular files, one or more chunks) followed by the manifest" — the same
records, then exactly one manifest block for the accumulated entries,
last in the stream. -/
def specEncodeStream (cs : Nat) (entries : List EncEntry) :
    List Nat × Bool :=
  let r := encodeRecords cs entries
  if r.2 then (r.1 ++ writeManifest (manifestAcc cs 0 entries), true)
  else r

/-- Modelled from the spec: "maintaining a rolling 4-byte window" — the
window value after shifting in each byte of `l`, starting from `w`. -/
def windowRoll (w : Nat) (l : List Nat) : Nat :=
  l.foldl (fun a b => (a % 2 ^ 24) * 2 ^ 8 + b) w

/-- A corrupted stream: a regular file `a` declaring 3 bytes whose chunk
header is twelve zero bytes, then the decoder's magic byte sequence
`DE AD BE EF`, then an intact directory record `d`. -/
def recoveryStream : List Nat :=
  HeaderPlain.writeBody ⟨1, [97], 3, 420, 0, 0, []⟩ ++ zeros 12 ++
    [222, 173, 190, 239] ++
    HeaderPlain.writeBody ⟨1, [100], 0, 493, 0, 1, []⟩

/-! ## Theorems: byte-buffer primitives -/

@[simp] theorem zeros_length (n : Nat) : (zeros n).length = n := by
  simp [zeros]

@[simp] theorem beBytes_length (w v : Nat) : (beBytes w v).length = w := by
  induction w generalizing v with
  | zero => rfl
  | succ w ih => simp [beBytes, ih]

theorem beBytes_lt (w v : Nat) : ∀ b ∈ beBytes w v, b < 256 := by
  induction w generalizing v with
  | zero => simp [beBytes]
  | succ w ih =>
    intro b hb
    simp only [beBytes, List.mem_cons] at hb
    rcases hb with h | h
    · subst h; exact Nat.mod_lt _ (by norm_num)
    · exact ih v b h

theorem beVal_append (l₁ l₂ : List Nat) :
    beVal (l₁ ++ l₂) = beVal l₁ * 256 ^ l₂.length + beVal l₂ := by
  induction l₂ using List.reverseRecOn with
  | nil => simp [beVal]
  | append_singleton xs x ih =>
    simp only [beVal, ← List.append_assoc, List.foldl_append, List.foldl_cons,
      List.foldl_nil] at *
    rw [ih]
    simp only [List.length_append, List.length_singleton, pow_succ]
    ring

/-- Round trip: decoding a big-endian encoding recovers the value modulo `256 ^ w`. -/
theorem beVal_beBytes (w v : Nat) : beVal (beBytes w v) = v % 256 ^ w := by
  induction w generalizing v with
  | zero => simp [beBytes, beVal, Nat.mod_one]
  | succ w ih =>
    have : beBytes (w + 1) v = [(v / 256 ^ w) % 256] ++ beBytes w v := by
      simp [beBytes]
    rw [this, beVal_append, ih, beBytes_length]
    have hv : beVal [(v / 256 ^ w) % 256] = (v / 256 ^ w) % 256 := by
      simp [beVal]
    rw [hv, pow_succ, Nat.mod_mul]
    ring

theorem beVal_beBytes_of_lt {w v : Nat} (h : v < 256 ^ w) :
    beVal (beBytes w v) = v := by
  rw [beVal_beBytes, Nat.mod_eq_of_lt h]

/-- Extracting a slice that coincides with a middle region of a concatenation. -/
theorem sliceGet_at (p q r : List Nat) {off n : Nat}
    (hp : p.length = off) (hq : q.length = n) :
    sliceGet (p ++ (q ++ r)) off n = q := by
  subst hp hq
  simp [sliceGet, List.drop_left, List.take_left]

theorem sliceGet_nil (off n : Nat) : sliceGet [] off n = [] := by
  simp [sliceGet]

/-- Extracting an initial slice of a concatenation. -/
theorem sliceGet_head (q r : List Nat) (n : Nat) (hq : q.length = n) :
    sliceGet (q ++ r) 0 n = q := by
  unfold sliceGet
  rw [List.drop_zero, ← hq, List.take_left]

/-- Overwriting a region that coincides with the middle of a concatenation. -/
theorem setBytes_at (p q r data : List Nat) {off : Nat}
    (hp : p.length = off) (hq : q.length = data.length) :
    setBytes (p ++ (q ++ r)) off data = p ++ (data ++ r) := by
  subst hp
  unfold setBytes
  rw [List.take_left, ← List.append_assoc]
  have h2 : (p ++ q).length = p.length + data.length := by
    simp [hq]
  rw [List.drop_left' h2, List.append_assoc]

/-- A store at offset `off` leaves the first `m ≤ off` bytes unchanged
(for buffers at least `m` long). -/
theorem setBytes_take {b data : List Nat} {off m : Nat}
    (hm : m ≤ off) (hb : m ≤ b.length) :
    (setBytes b off data).take m = b.take m := by
  unfold setBytes
  rw [List.append_assoc, List.take_append_of_le_length, List.take_take,
    Nat.min_eq_left hm]
  rw [List.length_take]
  exact le_min hm hb

theorem setBytes_length {b data : List Nat} {off : Nat}
    (h : off + data.length ≤ b.length) :
    (setBytes b off data).length = b.length := by
  unfold setBytes
  simp only [List.length_append, List.length_take, List.length_drop]
  omega

/-- `bytes.IndexByte(p ++ 0 :: z, 0)`-style prefix extraction: when `p` is
NUL-free, the prefix before the first NUL of `p ++ 0 :: z` is `p`. -/
theorem takeWhile_ne_zero_append {p : List Nat} (z : List Nat)
    (h : ∀ b ∈ p, b ≠ 0) :
    (p ++ 0 :: z).takeWhile (fun b => b != 0) = p := by
  induction p with
  | nil => simp [List.takeWhile]
  | cons a p ih =>
    have ha : a ≠ 0 := h a (List.mem_cons_self a p)
    simp only [List.cons_append, List.takeWhile_cons]
    rw [if_pos (by simpa using ha)]
    rw [ih (fun b hb => h b (List.mem_cons_of_mem a hb))]

theorem length_takeWhile_le (l : List Nat) (f : Nat → Bool) :
    (l.takeWhile f).length ≤ l.length :=
  (List.takeWhile_sublist f).length_le

theorem byteAt_at (p : List Nat) (t : Nat) (r : List Nat) {off : Nat}
    (hp : p.length = off) : byteAt (p ++ (t :: r)) off = t := by
  subst hp
  simp [byteAt, List.drop_left]

/-! ## Theorems: CRC32 bounds -/

theorem crc32Round_lt {c : Nat} (h : c < 2 ^ 32) : crc32Round c < 2 ^ 32 := by
  unfold crc32Round
  apply Nat.xor_lt_two_pow
  · rw [Nat.shiftRight_eq_div_pow]
    calc c / 2 ^ 1 ≤ c := Nat.div_le_self _ _
      _ < 2 ^ 32 := h
  · rw [Nat.and_one_is_mod]
    have : c % 2 ≤ 1 := Nat.le_of_lt_succ (Nat.mod_lt _ (by norm_num))
    calc crc32Poly * (c % 2) ≤ crc32Poly * 1 := Nat.mul_le_mul_left _ this
      _ < 2 ^ 32 := by norm_num [crc32Poly]

theorem crc32Round_iter_lt {c : Nat} (n : Nat) (h : c < 2 ^ 32) :
    crc32Round^[n] c < 2 ^ 32 := by
  induction n generalizing c with
  | zero => simpa using h
  | succ n ih =>
    rw [Function.iterate_succ_apply]
    exact ih (crc32Round_lt h)

theorem crc32Byte_lt {c b : Nat} (hc : c < 2 ^ 32) (hb : b < 256) :
    crc32Byte c b < 2 ^ 32 := by
  unfold crc32Byte
  exact crc32Round_iter_lt 8 (Nat.xor_lt_two_pow hc (lt_of_lt_of_le hb (by norm_num)))

theorem crc32_lt {l : List Nat} (h : ∀ b ∈ l, b < 256) : crc32 l < 2 ^ 32 := by
  unfold crc32
  apply Nat.xor_lt_two_pow _ (by norm_num)
  have : ∀ (l : List Nat) (a : Nat), (∀ b ∈ l, b < 256) → a < 2 ^ 32 →
      l.foldl crc32Byte a < 2 ^ 32 := by
    intro l
    induction l with
    | nil => intro a _ ha; simpa using ha
    | cons x xs ih =>
      intro a hl ha
      simp only [List.foldl_cons]
      exact ih _ (fun b hb => hl b (List.mem_cons_of_mem x hb))
        (crc32Byte_lt ha (hl x (List.mem_cons_self x xs)))
  exact this l 0xFFFFFFFF h (by norm_num)

/-! ## Theorems: int64 bit-pattern round trip -/

theorem toUInt64_lt (m : Int) : toUInt64 m < 2 ^ 64 := by
  unfold toUInt64
  omega

theorem toInt64_toUInt64 {m : Int} (h1 : -2 ^ 63 ≤ m) (h2 : m < 2 ^ 63) :
    toInt64 (toUInt64 m) = m := by
  unfold toInt64 toUInt64
  split <;> omega

/-! ## Theorems: shared header fields -/

theorem pathField_length {path : List Nat} (h : path.length ≤ 255) :
    (pathField path).length = 256 := by
  simp only [pathField, List.length_append, List.length_cons, zeros_length]
  omega

theorem linkField_length {fh : FileHeader}
    (h : fh.FileType = fileTypeSymlink → fh.LinkTarget.length ≤ 127) :
    (linkField fh).length = 128 := by
  unfold linkField
  split
  · rename_i hs
    simp only [List.length_append, List.length_cons, zeros_length]
    have := h hs
    omega
  · simp

theorem zeros_split (m n : Nat) : zeros (m + n) = zeros m ++ zeros n := by
  simp only [zeros, List.replicate_add]

theorem zeros_eq_split {a m n : Nat} (h : a = m + n) :
    zeros a = zeros m ++ zeros n := by
  rw [h, zeros_split]

/-! ## Theorems: the CRC-protected header codec -/

namespace HeaderCrc

theorem headerBody_length {fh : FileHeader} (hp : fh.FilePath.length ≤ 255)
    (hl : fh.FileType = fileTypeSymlink → fh.LinkTarget.length ≤ 127) :
    (headerBody fh).length = 508 := by
  simp [headerBody, pathField_length hp, linkField_length hl]

theorem headerBytes_length {fh : FileHeader} (hp : fh.FilePath.length ≤ 255)
    (hl : fh.FileType = fileTypeSymlink → fh.LinkTarget.length ≤ 127) :
    (headerBytes fh).length = 512 := by
  simp [headerBytes, headerBody_length hp hl]

theorem headerBody_bytes_lt {fh : FileHeader} (hgo : fh.GoValid) :
    ∀ b ∈ headerBody fh, b < 256 := by
  obtain ⟨_, _, _, _, _, hft, hpb, hlb⟩ := hgo
  intro b hb
  simp only [headerBody, pathField, linkField, List.mem_append, List.mem_cons,
    zeros, List.mem_replicate] at hb
  rcases hb with h | h
  · exact beBytes_lt _ _ _ h
  rcases h with h | h
  · exact beBytes_lt _ _ _ h
  rcases h with (h | h | h) | h
  · exact hpb b h
  · omega
  · omega
  rcases h with h | h
  · exact beBytes_lt _ _ _ h
  rcases h with h | h
  · exact beBytes_lt _ _ _ h
  rcases h with h | h
  · exact beBytes_lt _ _ _ h
  rcases h with h | h
  · omega
  split at h
  · simp only [List.mem_append, List.mem_cons, zeros, List.mem_replicate] at h
    rcases h with (h | h | h) | h
    · exact hlb b h
    · omega
    · omega
    · omega
  · simp only [List.mem_append, zeros, List.mem_replicate] at h
    rcases h with h | h <;> omega

/-- The CRC field of a written header is the big-endian CRC32 of its
first 508 bytes. -/
theorem crcSlice_headerBytes {fh : FileHeader} (hp255 : fh.FilePath.length ≤ 255)
    (hl127 : fh.FileType = fileTypeSymlink → fh.LinkTarget.length ≤ 127) :
    sliceGet (headerBytes fh) 508 4 = beBytes 4 (crc32 (headerBody fh)) := by
  have hbodylen : (headerBody fh).length = 508 := headerBody_length hp255 hl127
  rw [show headerBytes fh = headerBody fh ++
      (beBytes 4 (crc32 (headerBody fh)) ++ []) from by simp [headerBytes]]
  exact sliceGet_at _ _ _ hbodylen (by simp)

theorem take508_headerBytes {fh : FileHeader} (hp255 : fh.FilePath.length ≤ 255)
    (hl127 : fh.FileType = fileTypeSymlink → fh.LinkTarget.length ≤ 127) :
    (headerBytes fh).take 508 = headerBody fh := by
  have hbodylen : (headerBody fh).length = 508 := headerBody_length hp255 hl127
  rw [headerBytes, List.take_append_of_le_length (by omega),
    List.take_of_length_le (by omega)]

/-- The characterisation of reading back a header produced by the writer:
all fields round-trip, except that the link target of a non-symlink reads
back empty (the writer never stores it). -/
theorem readHeader_headerBytes (fh : FileHeader) (hgo : fh.GoValid)
    (hp255 : fh.FilePath.length ≤ 255)
    (hpz : ∀ b ∈ fh.FilePath, b ≠ 0)
    (hl127 : fh.FileType = fileTypeSymlink → fh.LinkTarget.length ≤ 127)
    (hlz : fh.FileType = fileTypeSymlink → ∀ b ∈ fh.LinkTarget, b ≠ 0) :
    readHeader (headerBytes fh) =
      .ok { fh with LinkTarget :=
              if fh.FileType = fileTypeSymlink then fh.LinkTarget else [] } := by
  have hbodylen : (headerBody fh).length = 508 := headerBody_length hp255 hl127
  have hlen : (headerBytes fh).length = 512 := headerBytes_length hp255 hl127
  have htake : (headerBytes fh).take headerSize = headerBytes fh :=
    List.take_of_length_le (by rw [hlen]; rfl)
  have hcrcval : crc32 (headerBody fh) < 2 ^ 32 :=
    crc32_lt (headerBody_bytes_lt hgo)
  have hcrcslice : sliceGet (headerBytes fh) 508 4 =
      beBytes 4 (crc32 (headerBody fh)) := crcSlice_headerBytes hp255 hl127
  have htake508 : (headerBytes fh).take 508 = headerBody fh :=
    take508_headerBytes hp255 hl127
  -- Magic field.
  have hmagic : sliceGet (headerBytes fh) 0 4 =
      beBytes 4 fileHeaderMagicNumber := by
    rw [show headerBytes fh = [] ++ (beBytes 4 fileHeaderMagicNumber ++
        (beBytes 4 fh.Version ++ (pathField fh.FilePath ++ (beBytes 8 fh.FileSize ++
          (beBytes 4 fh.FileMode ++ (beBytes 8 (toUInt64 fh.ModTime) ++
            (fh.FileType :: (linkField fh ++ (zeros 95 ++
              beBytes 4 (crc32 (headerBody fh))))))))))) from by
      simp [headerBytes, headerBody, List.append_assoc]]
    exact sliceGet_at _ _ _ rfl (by simp)
  have hver : sliceGet (headerBytes fh) 4 4 = beBytes 4 fh.Version := by
    rw [show headerBytes fh = beBytes 4 fileHeaderMagicNumber ++
        ((beBytes 4 fh.Version) ++ (pathField fh.FilePath ++ (beBytes 8 fh.FileSize ++
          (beBytes 4 fh.FileMode ++ (beBytes 8 (toUInt64 fh.ModTime) ++
            (fh.FileType :: (linkField fh ++ (zeros 95 ++
              beBytes 4 (crc32 (headerBody fh)))))))))) from by
      simp [headerBytes, headerBody, List.append_assoc]]
    exact sliceGet_at _ _ _ (by simp) (by simp)
  have hpath : sliceGet (headerBytes fh) 8 256 = pathField fh.FilePath := by
    rw [show headerBytes fh = (beBytes 4 fileHeaderMagicNumber ++
        beBytes 4 fh.Version) ++ ((pathField fh.FilePath) ++ (beBytes 8 fh.FileSize ++
          (beBytes 4 fh.FileMode ++ (beBytes 8 (toUInt64 fh.ModTime) ++
            (fh.FileType :: (linkField fh ++ (zeros 95 ++
              beBytes 4 (crc32 (headerBody fh))))))))) from by
      simp [headerBytes, headerBody, List.append_assoc]]
    exact sliceGet_at _ _ _ (by simp) (pathField_length hp255)
  have hsize : sliceGet (headerBytes fh) 264 8 = beBytes 8 fh.FileSize := by
    rw [show headerBytes fh = (beBytes 4 fileHeaderMagicNumber ++
        (beBytes 4 fh.Version ++ pathField fh.FilePath)) ++ ((beBytes 8 fh.FileSize) ++
          (beBytes 4 fh.FileMode ++ (beBytes 8 (toUInt64 fh.ModTime) ++
            (fh.FileType :: (linkField fh ++ (zeros 95 ++
              beBytes 4 (crc32 (headerBody fh)))))))) from by
      simp [headerBytes, headerBody, List.append_assoc]]
    exact sliceGet_at _ _ _ (by simp [pathField_length hp255]) (by simp)
  have hmode : sliceGet (headerBytes fh) 272 4 = beBytes 4 fh.FileMode := by
    rw [show headerBytes fh = (beBytes 4 fileHeaderMagicNumber ++
        (beBytes 4 fh.Version ++ (pathField fh.FilePath ++ beBytes 8 fh.FileSize))) ++
        ((beBytes 4 fh.FileMode) ++ (beBytes 8 (toUInt64 fh.ModTime) ++
            (fh.FileType :: (linkField fh ++ (zeros 95 ++
              beBytes 4 (crc32 (headerBody fh))))))) from by
      simp [headerBytes, headerBody, List.append_assoc]]
    exact sliceGet_at _ _ _ (by simp [pathField_length hp255]) (by simp)
  have hmt : sliceGet (headerBytes fh) 276 8 = beBytes 8 (toUInt64 fh.ModTime) := by
    rw [show headerBytes fh = (beBytes 4 fileHeaderMagicNumber ++
        (beBytes 4 fh.Version ++ (pathField fh.FilePath ++ (beBytes 8 fh.FileSize ++
          beBytes 4 fh.FileMode)))) ++ ((beBytes 8 (toUInt64 fh.ModTime)) ++
            (fh.FileType :: (linkField fh ++ (zeros 95 ++
              beBytes 4 (crc32 (headerBody fh)))))) from by
      simp [headerBytes, headerBody, List.append_assoc]]
    exact sliceGet_at _ _ _ (by simp [pathField_length hp255]) (by simp)
  have hft : byteAt (headerBytes fh) 284 = fh.FileType := by
    rw [show headerBytes fh = (beBytes 4 fileHeaderMagicNumber ++
        (beBytes 4 fh.Version ++ (pathField fh.FilePath ++ (beBytes 8 fh.FileSize ++
          (beBytes 4 fh.FileMode ++ beBytes 8 (toUInt64 fh.ModTime)))))) ++
        (fh.FileType :: (linkField fh ++ (zeros 95 ++
          beBytes 4 (crc32 (headerBody fh))))) from by
      simp [headerBytes, headerBody, List.append_assoc]]
    exact byteAt_at _ _ _ (by simp [pathField_length hp255])
  have hlink : sliceGet (headerBytes fh) 285 128 = linkField fh := by
    rw [show headerBytes fh = (beBytes 4 fileHeaderMagicNumber ++
        (beBytes 4 fh.Version ++ (pathField fh.FilePath ++ (beBytes 8 fh.FileSize ++
          (beBytes 4 fh.FileMode ++ (beBytes 8 (toUInt64 fh.ModTime) ++
            [fh.FileType])))))) ++ ((linkField fh) ++ (zeros 95 ++
              beBytes 4 (crc32 (headerBody fh)))) from by
      simp [headerBytes, headerBody, List.append_assoc]]
    exact sliceGet_at _ _ _ (by simp [pathField_length hp255])
      (linkField_length hl127)
  obtain ⟨hv, hs, hm, hmt1, hmt2, hftb, hpb, hlb⟩ := hgo
  unfold readHeader
  rw [if_neg (by rw [hlen]; decide)]
  simp only [htake, hcrcslice, htake508, hmagic, hver, hpath, hsize, hmode,
    hmt, hft, hlink]
  rw [if_neg (by
    rw [beVal_beBytes_of_lt (lt_of_lt_of_le hcrcval (by norm_num))]
    simp)]
  rw [if_neg (by
    rw [beVal_beBytes_of_lt (by norm_num [fileHeaderMagicNumber])]
    simp)]
  have hpathtw : (pathField fh.FilePath).takeWhile (fun b => b != 0) =
      fh.FilePath := by
    unfold pathField
    exact takeWhile_ne_zero_append _ hpz
  rw [hpathtw]
  rw [beVal_beBytes_of_lt (lt_of_lt_of_le hv (by norm_num)),
    beVal_beBytes_of_lt (lt_of_lt_of_le hs (by norm_num)),
    beVal_beBytes_of_lt (lt_of_lt_of_le hm (by norm_num)),
    beVal_beBytes_of_lt (lt_of_lt_of_le (toUInt64_lt fh.ModTime) (by norm_num)),
    toInt64_toUInt64 hmt1 hmt2]
  by_cases hsym : fh.FileType = fileTypeSymlink
  · rw [if_pos hsym, if_pos hsym]
    have : linkField fh = fh.LinkTarget ++ 0 :: zeros (127 - fh.LinkTarget.length) := by
      simp [linkField, hsym]
    rw [this, takeWhile_ne_zero_append _ (hlz hsym)]
  · rw [if_neg hsym, if_neg hsym]

end HeaderCrc

/-- C3 (counterexample): the round trip does not return every in-range
header unchanged — a regular file (`file_type = 0`) whose `LinkTarget`
field is the non-empty string `"b"` reads back with an empty link target,
because `writeHeader` only stores the link target of symlinks. -/
theorem c3_crc_header_roundtrip_counterexample :
    HeaderCrc.writeHeader ⟨1, [97], 0, 0, 0, 0, [98]⟩ =
      some (HeaderCrc.headerBytes ⟨1, [97], 0, 0, 0, 0, [98]⟩) ∧
    HeaderCrc.readHeader (HeaderCrc.headerBytes ⟨1, [97], 0, 0, 0, 0, [98]⟩) =
      Except.ok ⟨1, [97], 0, 0, 0, 0, []⟩ ∧
    (⟨1, [97], 0, 0, 0, 0, []⟩ : FileHeader) ≠ ⟨1, [97], 0, 0, 0, 0, [98]⟩ := by
  refine ⟨?_, ?_, by decide⟩
  · unfold HeaderCrc.writeHeader
    rw [if_neg (by decide), if_neg (by decide)]
  · have h := HeaderCrc.readHeader_headerBytes ⟨1, [97], 0, 0, 0, 0, [98]⟩
      (by decide) (by decide) (by decide) (by decide) (by decide)
    simpa [fileTypeSymlink] using h

/-- C3 (amended): for every header within the Go field ranges whose path
is at most 255 bytes and NUL-free, whose file type is in {0,1,2}, whose
link target is NUL-free and at most 127 bytes for symlinks and empty
otherwise, and whose mod time is any int64 (negative allowed, via
`GoValid`), `readHeader` returns the written header unchanged, and the
512 bytes carry a CRC32/IEEE over bytes 0..507 stored at bytes
508..511. -/
theorem c3_crc_header_roundtrip (fh : FileHeader) (hgo : fh.GoValid)
    (hft : fh.FileType = fileTypeRegular ∨ fh.FileType = fileTypeDirectory ∨
      fh.FileType = fileTypeSymlink)
    (hp255 : fh.FilePath.length ≤ 255)
    (hpz : ∀ b ∈ fh.FilePath, b ≠ 0)
    (hl127 : fh.FileType = fileTypeSymlink → fh.LinkTarget.length ≤ 127)
    (hlz : fh.FileType = fileTypeSymlink → ∀ b ∈ fh.LinkTarget, b ≠ 0)
    (hlempty : fh.FileType ≠ fileTypeSymlink → fh.LinkTarget = []) :
    ∃ bs, HeaderCrc.writeHeader fh = some bs ∧
      HeaderCrc.readHeader bs = Except.ok fh ∧
      sliceGet bs 508 4 = beBytes 4 (crc32 (bs.take 508)) := by
  refine ⟨HeaderCrc.headerBytes fh, ?_, ?_, ?_⟩
  · unfold HeaderCrc.writeHeader
    rw [if_neg (by omega), if_neg (by
      rintro ⟨h2, h128⟩
      have := hl127 h2
      omega)]
  · rw [HeaderCrc.readHeader_headerBytes fh hgo hp255 hpz hl127 hlz]
    by_cases hsym : fh.FileType = fileTypeSymlink
    · rw [if_pos hsym]
    · rw [if_neg hsym, show ([] : List Nat) = fh.LinkTarget from
        (hlempty hsym).symm]
  · rw [HeaderCrc.crcSlice_headerBytes hp255 hl127,
      HeaderCrc.take508_headerBytes hp255 hl127]

/-- C3 witness: a concrete symlink header with a negative mod time
round-trips, with the CRC stored in the last four bytes. -/
theorem c3_crc_header_roundtrip_witness :
    ∃ bs, HeaderCrc.writeHeader ⟨1, [97], 3, 420, -7, 2, [98]⟩ = some bs ∧
      HeaderCrc.readHeader bs = Except.ok ⟨1, [97], 3, 420, -7, 2, [98]⟩ ∧
      sliceGet bs 508 4 = beBytes 4 (crc32 (bs.take 508)) :=
  c3_crc_header_roundtrip ⟨1, [97], 3, 420, -7, 2, [98]⟩ (by decide)
    (by decide) (by decide) (by decide) (by decide) (by decide) (by decide)

/-- C8: `writeHeader` accepts a path of exactly 255 bytes and rejects 256
bytes or more; it accepts a symlink link target of exactly 127 bytes and
rejects 128 bytes or more. -/
theorem c8_write_header_limits :
    (∀ fh : FileHeader, fh.FilePath.length = 255 →
      (fh.FileType = fileTypeSymlink → fh.LinkTarget.length ≤ 127) →
      (HeaderCrc.writeHeader fh).isSome) ∧
    (∀ fh : FileHeader, 256 ≤ fh.FilePath.length →
      HeaderCrc.writeHeader fh = none) ∧
    (∀ fh : FileHeader, fh.FileType = fileTypeSymlink →
      fh.LinkTarget.length = 127 → fh.FilePath.length ≤ 255 →
      (HeaderCrc.writeHeader fh).isSome) ∧
    (∀ fh : FileHeader, fh.FileType = fileTypeSymlink →
      128 ≤ fh.LinkTarget.length → fh.FilePath.length ≤ 255 →
      HeaderCrc.writeHeader fh = none) := by
  refine ⟨?_, ?_, ?_, ?_⟩
  · intro fh hp hl
    unfold HeaderCrc.writeHeader
    rw [if_neg (by omega), if_neg (by
      rintro ⟨h2, h128⟩
      have := hl h2
      omega)]
    rfl
  · intro fh hp
    unfold HeaderCrc.writeHeader
    rw [if_pos (by omega)]
  · intro fh hsym hl hp
    unfold HeaderCrc.writeHeader
    rw [if_neg (by omega), if_neg (by
      rintro ⟨h2, h128⟩
      omega)]
    rfl
  · intro fh hsym hl hp
    unfold HeaderCrc.writeHeader
    rw [if_neg (by omega), if_pos ⟨hsym, hl⟩]

/-- C8 witness: the four boundary cases at concrete headers. -/
theorem c8_write_header_limits_witness :
    (HeaderCrc.writeHeader ⟨1, List.replicate 255 97, 0, 0, 0, 0, []⟩).isSome ∧
    HeaderCrc.writeHeader ⟨1, List.replicate 256 97, 0, 0, 0, 0, []⟩ = none ∧
    (HeaderCrc.writeHeader ⟨1, [97], 0, 0, 0, 2, List.replicate 127 98⟩).isSome ∧
    HeaderCrc.writeHeader ⟨1, [97], 0, 0, 0, 2, List.replicate 128 98⟩ = none := by
  obtain ⟨h1, h2, h3, h4⟩ := c8_write_header_limits
  refine ⟨h1 _ ?_ ?_, h2 _ ?_, h3 _ rfl ?_ ?_, h4 _ rfl ?_ ?_⟩
  · simp only [List.length_replicate]
  · intro h
    simp only [List.length_replicate]
    norm_num
  · simp only [List.length_replicate]
    norm_num
  · simp only [List.length_replicate]
  · decide
  · simp only [List.length_replicate]
    norm_num
  · decide

/-! ## Theorems: the plain header codec and its path/size overlap -/

/-- A NUL stops `takeWhile`-based prefix extraction no matter what
follows it. -/
theorem takeWhile_append_zero (A X : List Nat) :
    ((A ++ 0 :: X).takeWhile fun b => b != 0) = A.takeWhile fun b => b != 0 := by
  induction A with
  | nil => simp [List.takeWhile_cons]
  | cons a A ih =>
    by_cases ha : a = 0
    · subst ha; simp [List.takeWhile_cons]
    · simp only [List.cons_append, List.takeWhile_cons]
      rw [if_pos (by simpa using ha), if_pos (by simpa using ha), ih]

namespace HeaderPlain

/-- Normal form of the written buffer for long paths (`253 ≤ |path| ≤ 255`,
split as `P1 ++ P2` with `|P1| = 252`): the file-size store at offset 260
overwrites the last `|P2|` path bytes, the path's NUL terminator, and the
zeroes up to offset 267 — so the final buffer carries only `P1` of the
path, immediately followed by the 8 file-size bytes. -/
theorem writeBody_eq (fh : FileHeader) (P1 P2 : List Nat)
    (hP : fh.FilePath = P1 ++ P2) (hP1 : P1.length = 252)
    (hk1 : 1 ≤ P2.length) (hk3 : P2.length ≤ 3)
    (hT : fh.FileType = fileTypeSymlink → fh.LinkTarget.length ≤ 127) :
    writeBody fh =
      beBytes 4 fileHeaderMagicNumber ++
        (beBytes 4 fh.Version ++
          (P1 ++
            (beBytes 8 fh.FileSize ++
              (beBytes 4 fh.FileMode ++
                (beBytes 8 (toUInt64 fh.ModTime) ++
                  (fh.FileType :: (linkField fh ++ zeros 103))))))) := by
  have hLen : fh.FilePath.length = 252 + P2.length := by
    rw [hP]; simp [hP1]
  have h1 : setBytes (zeros 512) 0 (beBytes 4 fileHeaderMagicNumber) =
      beBytes 4 fileHeaderMagicNumber ++ zeros 508 := by
    rw [show (zeros 512 : List Nat) = [] ++ (zeros 4 ++ zeros 508) from by
      rw [zeros_eq_split (show (512 : Nat) = 4 + 508 from by norm_num)]
      simp]
    rw [setBytes_at _ _ _ _ (by simp) (by simp)]
    simp
  have h2 : setBytes (beBytes 4 fileHeaderMagicNumber ++ zeros 508) 4
      (beBytes 4 fh.Version) =
      beBytes 4 fileHeaderMagicNumber ++ (beBytes 4 fh.Version ++ zeros 504) := by
    rw [show beBytes 4 fileHeaderMagicNumber ++ zeros 508 =
        beBytes 4 fileHeaderMagicNumber ++ (zeros 4 ++ zeros 504) from by
      rw [zeros_eq_split (show (508 : Nat) = 4 + 504 from by norm_num)]]
    rw [setBytes_at _ _ _ _ (by simp) (by simp)]
  have h3 : setBytes (beBytes 4 fileHeaderMagicNumber ++
      (beBytes 4 fh.Version ++ zeros 504)) 8 fh.FilePath =
      beBytes 4 fileHeaderMagicNumber ++ (beBytes 4 fh.Version ++
        (fh.FilePath ++ zeros (252 - P2.length))) := by
    rw [show beBytes 4 fileHeaderMagicNumber ++ (beBytes 4 fh.Version ++ zeros 504) =
        (beBytes 4 fileHeaderMagicNumber ++ beBytes 4 fh.Version) ++
          (zeros (252 + P2.length) ++ zeros (252 - P2.length)) from by
      rw [zeros_eq_split
        (show (504 : Nat) = (252 + P2.length) + (252 - P2.length) from by omega)]
      simp [List.append_assoc]]
    rw [setBytes_at _ _ _ _ (by simp) (by simp [hLen])]
    simp [List.append_assoc]
  have h4 : setBytes (beBytes 4 fileHeaderMagicNumber ++ (beBytes 4 fh.Version ++
      (fh.FilePath ++ zeros (252 - P2.length)))) (8 + fh.FilePath.length) [0] =
      beBytes 4 fileHeaderMagicNumber ++ (beBytes 4 fh.Version ++
        (fh.FilePath ++ ([0] ++ zeros (251 - P2.length)))) := by
    rw [show beBytes 4 fileHeaderMagicNumber ++ (beBytes 4 fh.Version ++
        (fh.FilePath ++ zeros (252 - P2.length))) =
        ((beBytes 4 fileHeaderMagicNumber ++ beBytes 4 fh.Version) ++ fh.FilePath) ++
          (zeros 1 ++ zeros (251 - P2.length)) from by
      rw [zeros_eq_split
        (show (252 : Nat) - P2.length = 1 + (251 - P2.length) from by omega)]
      simp [List.append_assoc]]
    rw [setBytes_at _ _ _ _ (by simp; all_goals omega) (by simp)]
    simp [List.append_assoc]
  have h5 : setBytes (beBytes 4 fileHeaderMagicNumber ++ (beBytes 4 fh.Version ++
      (fh.FilePath ++ ([0] ++ zeros (251 - P2.length))))) 260
      (beBytes 8 fh.FileSize) =
      beBytes 4 fileHeaderMagicNumber ++ (beBytes 4 fh.Version ++
        (P1 ++ (beBytes 8 fh.FileSize ++ zeros 244))) := by
    rw [show beBytes 4 fileHeaderMagicNumber ++ (beBytes 4 fh.Version ++
        (fh.FilePath ++ ([0] ++ zeros (251 - P2.length)))) =
        ((beBytes 4 fileHeaderMagicNumber ++ beBytes 4 fh.Version) ++ P1) ++
          ((P2 ++ ([0] ++ zeros (7 - P2.length))) ++ zeros 244) from by
      rw [zeros_eq_split
        (show (251 : Nat) - P2.length = (7 - P2.length) + 244 from by omega), hP]
      simp [List.append_assoc]]
    rw [setBytes_at _ _ _ _ (by simp [hP1]) (by simp; all_goals omega)]
    simp [List.append_assoc]
  have h6 : setBytes (beBytes 4 fileHeaderMagicNumber ++ (beBytes 4 fh.Version ++
      (P1 ++ (beBytes 8 fh.FileSize ++ zeros 244)))) 268
      (beBytes 4 fh.FileMode) =
      beBytes 4 fileHeaderMagicNumber ++ (beBytes 4 fh.Version ++
        (P1 ++ (beBytes 8 fh.FileSize ++ (beBytes 4 fh.FileMode ++ zeros 240)))) := by
    rw [show beBytes 4 fileHeaderMagicNumber ++ (beBytes 4 fh.Version ++
        (P1 ++ (beBytes 8 fh.FileSize ++ zeros 244))) =
        ((beBytes 4 fileHeaderMagicNumber ++ beBytes 4 fh.Version) ++
          (P1 ++ beBytes 8 fh.FileSize)) ++ (zeros 4 ++ zeros 240) from by
      rw [zeros_eq_split (show (244 : Nat) = 4 + 240 from by norm_num)]
      simp [List.append_assoc]]
    rw [setBytes_at _ _ _ _ (by simp [hP1]) (by simp)]
    simp [List.append_assoc]
  have h7 : setBytes (beBytes 4 fileHeaderMagicNumber ++ (beBytes 4 fh.Version ++
      (P1 ++ (beBytes 8 fh.FileSize ++ (beBytes 4 fh.FileMode ++ zeros 240))))) 272
      (beBytes 8 (toUInt64 fh.ModTime)) =
      beBytes 4 fileHeaderMagicNumber ++ (beBytes 4 fh.Version ++
        (P1 ++ (beBytes 8 fh.FileSize ++ (beBytes 4 fh.FileMode ++
          (beBytes 8 (toUInt64 fh.ModTime) ++ zeros 232))))) := by
    rw [show beBytes 4 fileHeaderMagicNumber ++ (beBytes 4 fh.Version ++
        (P1 ++ (beBytes 8 fh.FileSize ++ (beBytes 4 fh.FileMode ++ zeros 240)))) =
        ((beBytes 4 fileHeaderMagicNumber ++ beBytes 4 fh.Version) ++
          (P1 ++ (beBytes 8 fh.FileSize ++ beBytes 4 fh.FileMode))) ++
          (zeros 8 ++ zeros 232) from by
      rw [zeros_eq_split (show (240 : Nat) = 8 + 232 from by norm_num)]
      simp [List.append_assoc]]
    rw [setBytes_at _ _ _ _ (by simp [hP1]) (by simp)]
    simp [List.append_assoc]
  have h8 : setBytes (beBytes 4 fileHeaderMagicNumber ++ (beBytes 4 fh.Version ++
      (P1 ++ (beBytes 8 fh.FileSize ++ (beBytes 4 fh.FileMode ++
        (beBytes 8 (toUInt64 fh.ModTime) ++ zeros 232)))))) 280 [fh.FileType] =
      beBytes 4 fileHeaderMagicNumber ++ (beBytes 4 fh.Version ++
        (P1 ++ (beBytes 8 fh.FileSize ++ (beBytes 4 fh.FileMode ++
          (beBytes 8 (toUInt64 fh.ModTime) ++ (fh.FileType :: zeros 231)))))) := by
    rw [show beBytes 4 fileHeaderMagicNumber ++ (beBytes 4 fh.Version ++
        (P1 ++ (beBytes 8 fh.FileSize ++ (beBytes 4 fh.FileMode ++
          (beBytes 8 (toUInt64 fh.ModTime) ++ zeros 232))))) =
        ((beBytes 4 fileHeaderMagicNumber ++ beBytes 4 fh.Version) ++
          (P1 ++ (beBytes 8 fh.FileSize ++ (beBytes 4 fh.FileMode ++
            beBytes 8 (toUInt64 fh.ModTime))))) ++ (zeros 1 ++ zeros 231) from by
      rw [zeros_eq_split (show (232 : Nat) = 1 + 231 from by norm_num)]
      simp [List.append_assoc]]
    rw [setBytes_at _ _ _ _ (by simp [hP1]) (by simp)]
    simp [List.append_assoc]
  simp only [writeBody, setByte]
  rw [h1, h2, h3, h4, h5, h6, h7, h8]
  by_cases hsym : fh.FileType = fileTypeSymlink
  · rw [if_pos hsym]
    have hTlen := hT hsym
    have h9 : setBytes (beBytes 4 fileHeaderMagicNumber ++ (beBytes 4 fh.Version ++
        (P1 ++ (beBytes 8 fh.FileSize ++ (beBytes 4 fh.FileMode ++
          (beBytes 8 (toUInt64 fh.ModTime) ++ (fh.FileType :: zeros 231))))))) 281
        fh.LinkTarget =
        beBytes 4 fileHeaderMagicNumber ++ (beBytes 4 fh.Version ++
          (P1 ++ (beBytes 8 fh.FileSize ++ (beBytes 4 fh.FileMode ++
            (beBytes 8 (toUInt64 fh.ModTime) ++ (fh.FileType ::
              (fh.LinkTarget ++ zeros (231 - fh.LinkTarget.length)))))))) := by
      rw [show beBytes 4 fileHeaderMagicNumber ++ (beBytes 4 fh.Version ++
          (P1 ++ (beBytes 8 fh.FileSize ++ (beBytes 4 fh.FileMode ++
            (beBytes 8 (toUInt64 fh.ModTime) ++ (fh.FileType :: zeros 231)))))) =
          ((beBytes 4 fileHeaderMagicNumber ++ beBytes 4 fh.Version) ++
            (P1 ++ (beBytes 8 fh.FileSize ++ (beBytes 4 fh.FileMode ++
              (beBytes 8 (toUInt64 fh.ModTime) ++ [fh.FileType]))))) ++
            (zeros fh.LinkTarget.length ++ zeros (231 - fh.LinkTarget.length)) from by
        rw [zeros_eq_split (show (231 : Nat) =
          fh.LinkTarget.length + (231 - fh.LinkTarget.length) from by omega)]
        simp [List.append_assoc]]
      rw [setBytes_at _ _ _ _ (by simp [hP1]) (by simp)]
      simp [List.append_assoc]
    rw [h9]
    have h10 : setBytes (beBytes 4 fileHeaderMagicNumber ++ (beBytes 4 fh.Version ++
        (P1 ++ (beBytes 8 fh.FileSize ++ (beBytes 4 fh.FileMode ++
          (beBytes 8 (toUInt64 fh.ModTime) ++ (fh.FileType ::
            (fh.LinkTarget ++ zeros (231 - fh.LinkTarget.length)))))))))
        (281 + fh.LinkTarget.length) [0] =
        beBytes 4 fileHeaderMagicNumber ++ (beBytes 4 fh.Version ++
          (P1 ++ (beBytes 8 fh.FileSize ++ (beBytes 4 fh.FileMode ++
            (beBytes 8 (toUInt64 fh.ModTime) ++ (fh.FileType ::
              (fh.LinkTarget ++ ([0] ++ (zeros (127 - fh.LinkTarget.length) ++
                zeros 103))))))))) := by
      rw [show beBytes 4 fileHeaderMagicNumber ++ (beBytes 4 fh.Version ++
          (P1 ++ (beBytes 8 fh.FileSize ++ (beBytes 4 fh.FileMode ++
            (beBytes 8 (toUInt64 fh.ModTime) ++ (fh.FileType ::
              (fh.LinkTarget ++ zeros (231 - fh.LinkTarget.length)))))))) =
          ((beBytes 4 fileHeaderMagicNumber ++ beBytes 4 fh.Version) ++
            (P1 ++ (beBytes 8 fh.FileSize ++ (beBytes 4 fh.FileMode ++
              (beBytes 8 (toUInt64 fh.ModTime) ++ (fh.FileType :: fh.LinkTarget)))))) ++
            (zeros 1 ++ (zeros (127 - fh.LinkTarget.length) ++ zeros 103)) from by
        rw [zeros_eq_split (show (231 : Nat) - fh.LinkTarget.length =
          1 + (230 - fh.LinkTarget.length) from by omega),
          zeros_eq_split (show (230 : Nat) - fh.LinkTarget.length =
            (127 - fh.LinkTarget.length) + 103 from by omega)]
        simp [List.append_assoc]]
      rw [setBytes_at _ _ _ _ (by simp [hP1]; all_goals omega) (by simp)]
      simp [List.append_assoc]
    rw [h10]
    simp only [linkField, if_pos hsym]
    simp [List.append_assoc]
  · rw [if_neg hsym]
    simp only [linkField, if_neg hsym]
    rw [zeros_eq_split (show (231 : Nat) = 128 + 103 from by norm_num)]

theorem writeBody_long_length {fh : FileHeader} (P1 P2 : List Nat)
    (hP : fh.FilePath = P1 ++ P2) (hP1 : P1.length = 252)
    (hk1 : 1 ≤ P2.length) (hk3 : P2.length ≤ 3)
    (hT : fh.FileType = fileTypeSymlink → fh.LinkTarget.length ≤ 127) :
    (writeBody fh).length = 512 := by
  rw [writeBody_eq fh P1 P2 hP hP1 hk1 hk3 hT]
  simp [linkField_length hT, hP1]

end HeaderPlain

/-- C10: the no-CRC header codec's `writeHeader` stores `file_size` at
bytes 260..267 while `readHeader` reads the path from bytes 8..263; for a
253-to-255-byte path and `file_size < 2^56` the read-back `FilePath` is
truncated to at most 252 bytes and differs from the original. -/
theorem c10_plain_header_overlap (fh : FileHeader)
    (hL : 253 ≤ fh.FilePath.length) (hL' : fh.FilePath.length ≤ 255)
    (hsize : fh.FileSize < 2 ^ 56)
    (hT : fh.FileType = fileTypeSymlink → fh.LinkTarget.length ≤ 127) :
    ∃ bs fh', HeaderPlain.writeHeader fh = some bs ∧
      HeaderPlain.readHeader bs = Except.ok fh' ∧
      fh'.FilePath = (fh.FilePath.take 252).takeWhile (fun b => b != 0) ∧
      fh'.FilePath.length ≤ 252 ∧ fh'.FilePath ≠ fh.FilePath := by
  have hP : fh.FilePath = fh.FilePath.take 252 ++ fh.FilePath.drop 252 :=
    (List.take_append_drop 252 fh.FilePath).symm
  have hP1 : (fh.FilePath.take 252).length = 252 := by
    simp [List.length_take]; omega
  have hk1 : 1 ≤ (fh.FilePath.drop 252).length := by
    simp [List.length_drop]; omega
  have hk3 : (fh.FilePath.drop 252).length ≤ 3 := by
    simp [List.length_drop]; omega
  have NF := HeaderPlain.writeBody_eq fh (fh.FilePath.take 252)
    (fh.FilePath.drop 252) hP hP1 hk1 hk3 hT
  have hlen : (HeaderPlain.writeBody fh).length = 512 :=
    HeaderPlain.writeBody_long_length _ _ hP hP1 hk1 hk3 hT
  have hwrite : HeaderPlain.writeHeader fh = some (HeaderPlain.writeBody fh) := by
    unfold HeaderPlain.writeHeader
    rw [if_neg (by omega), if_neg (by
      rintro ⟨ha, hb⟩
      have := hT ha
      omega)]
  have hS8 : beBytes 8 fh.FileSize = 0 :: beBytes 7 fh.FileSize := by
    rw [show beBytes 8 fh.FileSize =
      (fh.FileSize / 256 ^ 7) % 256 :: beBytes 7 fh.FileSize from rfl]
    rw [Nat.div_eq_of_lt (lt_of_lt_of_le hsize (by norm_num))]
  have hB7 : beBytes 7 fh.FileSize ++
      (beBytes 4 fh.FileMode ++ (beBytes 8 (toUInt64 fh.ModTime) ++
        (fh.FileType :: (linkField fh ++ zeros 103)))) =
      (beBytes 7 fh.FileSize).take 3 ++ ((beBytes 7 fh.FileSize).drop 3 ++
        (beBytes 4 fh.FileMode ++ (beBytes 8 (toUInt64 fh.ModTime) ++
          (fh.FileType :: (linkField fh ++ zeros 103))))) := by
    conv_rhs => rw [← List.append_assoc, List.take_append_drop]
  rw [hS8] at NF
  simp only [List.cons_append] at NF
  rw [hB7] at NF
  have hpslice : sliceGet (HeaderPlain.writeBody fh) 8 256 =
      fh.FilePath.take 252 ++ (0 :: (beBytes 7 fh.FileSize).take 3) := by
    rw [NF]
    rw [show beBytes 4 fileHeaderMagicNumber ++ (beBytes 4 fh.Version ++
        (fh.FilePath.take 252 ++ (0 :: ((beBytes 7 fh.FileSize).take 3 ++
          ((beBytes 7 fh.FileSize).drop 3 ++ (beBytes 4 fh.FileMode ++
            (beBytes 8 (toUInt64 fh.ModTime) ++ (fh.FileType ::
              (linkField fh ++ zeros 103))))))))) =
        (beBytes 4 fileHeaderMagicNumber ++ beBytes 4 fh.Version) ++
          ((fh.FilePath.take 252 ++ (0 :: (beBytes 7 fh.FileSize).take 3)) ++
            ((beBytes 7 fh.FileSize).drop 3 ++ (beBytes 4 fh.FileMode ++
              (beBytes 8 (toUInt64 fh.ModTime) ++ (fh.FileType ::
                (linkField fh ++ zeros 103)))))) from by
      simp [List.append_assoc]]
    exact sliceGet_at _ _ _ (by simp) (by simp [hP1])
  have hmagic : sliceGet (HeaderPlain.writeBody fh) 0 4 =
      beBytes 4 fileHeaderMagicNumber := by
    rw [NF]
    exact sliceGet_head (beBytes 4 fileHeaderMagicNumber) _ _ (by simp)
  have htake512 : (HeaderPlain.writeBody fh).take headerSize =
      HeaderPlain.writeBody fh :=
    List.take_of_length_le (by rw [hlen]; rfl)
  have hread : ∃ fh', HeaderPlain.readHeader (HeaderPlain.writeBody fh) =
      Except.ok fh' ∧ fh'.FilePath =
        (sliceGet (HeaderPlain.writeBody fh) 8 256).takeWhile (fun b => b != 0) := by
    unfold HeaderPlain.readHeader
    rw [if_neg (by rw [hlen]; decide)]
    simp only [htake512]
    rw [if_neg (by
      rw [hmagic, beVal_beBytes_of_lt (by norm_num [fileHeaderMagicNumber])]
      simp)]
    exact ⟨_, rfl, rfl⟩
  obtain ⟨fh', hread, hfp⟩ := hread
  rw [hpslice, takeWhile_append_zero] at hfp
  refine ⟨HeaderPlain.writeBody fh, fh', hwrite, hread, hfp, ?_, ?_⟩
  · rw [hfp]
    calc ((fh.FilePath.take 252).takeWhile fun b => b != 0).length
        ≤ (fh.FilePath.take 252).length := length_takeWhile_le _ _
      _ ≤ 252 := by rw [hP1]
  · intro heq
    have h1 : fh'.FilePath.length ≤ 252 := by
      rw [hfp]
      calc ((fh.FilePath.take 252).takeWhile fun b => b != 0).length
          ≤ (fh.FilePath.take 252).length := length_takeWhile_le _ _
        _ ≤ 252 := by rw [hP1]
    rw [heq] at h1
    omega

/-- C10 witness: a concrete 253-byte path with a small file size loses
its last byte through the overlap. -/
theorem c10_plain_header_overlap_witness :
    ∃ bs fh', HeaderPlain.writeHeader
        ⟨1, List.replicate 253 97, 5, 0, 0, 0, []⟩ = some bs ∧
      HeaderPlain.readHeader bs = Except.ok fh' ∧
      fh'.FilePath = ((List.replicate 253 97).take 252).takeWhile
        (fun b => b != 0) ∧
      fh'.FilePath.length ≤ 252 ∧ fh'.FilePath ≠ List.replicate 253 97 :=
  c10_plain_header_overlap ⟨1, List.replicate 253 97, 5, 0, 0, 0, []⟩
    (by simp only [List.length_replicate]; norm_num)
    (by simp only [List.length_replicate]; norm_num)
    (by norm_num) (by decide)

/-! ## Theorems: the chunk codec ceiling -/

/-- C9: a chunk whose declared length equals the configured maximum chunk
size is accepted and its payload read; a chunk whose declared length
exceeds the maximum is rejected with an error before any payload byte is
consumed (the tail after the chunk header is arbitrary — it need not even
contain the payload). -/
theorem c9_chunk_size_ceiling :
    (∀ (cs : Nat) (payload rest : List Nat), payload.length = cs → 0 < cs →
      cs < 2 ^ 64 →
      readChunks cs (beBytes 4 chunkMagicNumber ++ (beBytes 8 cs ++
        (payload ++ rest))) cs = .ok (payload, rest)) ∧
    (∀ (cs len expected : Nat) (tail : List Nat), 0 < expected → cs < len →
      len < 2 ^ 64 →
      readChunks cs (beBytes 4 chunkMagicNumber ++ (beBytes 8 len ++ tail))
        expected = .error (.badLength len)) := by
  have hmagic32 : chunkMagicNumber < 256 ^ 4 := by norm_num [chunkMagicNumber]
  have hhdr : ∀ (len : Nat) (tail : List Nat),
      (beBytes 4 chunkMagicNumber ++ (beBytes 8 len ++ tail)).take
        chunkHeaderSize = beBytes 4 chunkMagicNumber ++ beBytes 8 len := by
    intro len tail
    rw [show beBytes 4 chunkMagicNumber ++ (beBytes 8 len ++ tail) =
      (beBytes 4 chunkMagicNumber ++ beBytes 8 len) ++ tail from by
        simp [List.append_assoc]]
    exact List.take_left' (by simp [chunkHeaderSize])
  have hm : ∀ len : Nat,
      beVal (sliceGet (beBytes 4 chunkMagicNumber ++ beBytes 8 len) 0 4) =
        chunkMagicNumber := by
    intro len
    rw [sliceGet_head (beBytes 4 chunkMagicNumber) _ _ (by simp)]
    exact beVal_beBytes_of_lt hmagic32
  have hlenfield : ∀ len : Nat, len < 2 ^ 64 →
      beVal (sliceGet (beBytes 4 chunkMagicNumber ++ beBytes 8 len) 4 8) =
        len := by
    intro len hlt
    rw [show beBytes 4 chunkMagicNumber ++ beBytes 8 len =
      beBytes 4 chunkMagicNumber ++ (beBytes 8 len ++ []) from by simp]
    rw [sliceGet_at _ _ _ (by simp) (by simp)]
    exact beVal_beBytes_of_lt (by exact_mod_cast hlt)
  constructor
  · intro cs payload rest hpl hcs hcs64
    rw [readChunks]
    rw [if_neg (by omega), dif_neg (by simp [chunkHeaderSize]; omega)]
    simp only [hhdr, hm, hlenfield cs hcs64]
    rw [if_neg (by simp), if_neg (by omega)]
    have hdrop : (beBytes 4 chunkMagicNumber ++ (beBytes 8 cs ++
        (payload ++ rest))).drop chunkHeaderSize = payload ++ rest := by
      rw [show beBytes 4 chunkMagicNumber ++ (beBytes 8 cs ++ (payload ++ rest)) =
        (beBytes 4 chunkMagicNumber ++ beBytes 8 cs) ++ (payload ++ rest) from by
          simp [List.append_assoc]]
      exact List.drop_left' (by simp [chunkHeaderSize])
    rw [hdrop]
    rw [if_neg (by simp [hpl])]
    rw [List.take_left' hpl, List.drop_left' hpl, Nat.sub_self]
    rw [readChunks]
    simp
  · intro cs len expected tail hexp hceil hlen64
    rw [readChunks]
    rw [if_neg (by omega), dif_neg (by simp [chunkHeaderSize]; omega)]
    simp only [hhdr, hm, hlenfield len hlen64]
    rw [if_neg (by simp), if_pos hceil]

/-! ## Theorems: the manifest codec -/

theorem entryBytes_length (e : ManifestEntry) :
    (entryBytes e).length = 19 + e.FilePath.length := by
  simp [entryBytes]
  omega

theorem entryBytes_bytes_lt {e : ManifestEntry} (h : e.GoValid) :
    ∀ b ∈ entryBytes e, b < 256 := by
  obtain ⟨h1, h2, h3, h4⟩ := h
  intro b hb
  simp only [entryBytes, List.mem_append, List.mem_cons] at hb
  rcases hb with hb | hb | hb | hb
  · exact beBytes_lt _ _ _ hb
  · exact beBytes_lt _ _ _ hb
  · omega
  · rcases hb with hb | hb
    · exact beBytes_lt _ _ _ hb
    · exact h4 b hb

theorem entriesBytes_bytes_lt {es : List ManifestEntry}
    (h : ∀ e ∈ es, e.GoValid) : ∀ b ∈ entriesBytes es, b < 256 := by
  induction es with
  | nil => simp [entriesBytes]
  | cons e es ih =>
    intro b hb
    simp only [entriesBytes, List.mem_append] at hb
    rcases hb with hb | hb
    · exact entryBytes_bytes_lt (h e (List.mem_cons_self e es)) b hb
    · exact ih (fun e' he' => h e' (List.mem_cons_of_mem e he')) b hb

theorem manifestBody_bytes_lt {es : List ManifestEntry}
    (h : ∀ e ∈ es, e.GoValid) : ∀ b ∈ manifestBody es, b < 256 := by
  intro b hb
  simp only [manifestBody, List.mem_append] at hb
  rcases hb with h1 | h1
  · exact beBytes_lt _ _ _ h1
  rcases h1 with h1 | h1
  · exact beBytes_lt _ _ _ h1
  rcases h1 with h1 | h1
  · exact beBytes_lt _ _ _ h1
  rcases h1 with h1 | h1
  · exact entriesBytes_bytes_lt h b h1
  · exact beBytes_lt _ _ _ h1

theorem writeManifest_take (es : List ManifestEntry) :
    (writeManifest es).take ((writeManifest es).length - 4) =
      manifestBody es := by
  unfold writeManifest
  rw [show (manifestBody es ++ beBytes 4 (crc32 (manifestBody es))).length - 4 =
    (manifestBody es).length from by simp]
  exact List.take_left _ _

theorem writeManifest_crc_slice (es : List ManifestEntry) :
    sliceGet (writeManifest es) ((writeManifest es).length - 4) 4 =
      beBytes 4 (crc32 (manifestBody es)) := by
  unfold writeManifest
  rw [show (manifestBody es ++ beBytes 4 (crc32 (manifestBody es))).length - 4 =
    (manifestBody es).length from by simp]
  rw [show manifestBody es ++ beBytes 4 (crc32 (manifestBody es)) =
    manifestBody es ++ (beBytes 4 (crc32 (manifestBody es)) ++ []) from by simp]
  exact sliceGet_at _ _ _ rfl (by simp)

/-- Parsing the serialisation of a list of in-range entries (followed by
at least the 4 trailer bytes) returns exactly those entries. -/
theorem parseEntries_entriesBytes (es : List ManifestEntry) (T : List Nat)
    (hT : 4 ≤ T.length) (hval : ∀ e ∈ es, e.GoValid)
    (hlen : ∀ e ∈ es, e.FilePath.length < 2 ^ 16) :
    ∀ i, parseEntries i (entriesBytes es ++ T) es.length = .ok (es, T) := by
  induction es with
  | nil =>
    intro i
    simp [entriesBytes, parseEntries]
  | cons e es ih =>
    intro i
    obtain ⟨hoff, hsz, hty, hpb⟩ := hval e (List.mem_cons_self e es)
    have hpl : e.FilePath.length < 2 ^ 16 := hlen e (List.mem_cons_self e es)
    have hfix : entryBytes e = (beBytes 8 e.HeaderOffset ++
        (beBytes 8 e.FileSize ++ (e.FileType ::
          beBytes 2 (e.FilePath.length % 2 ^ 16)))) ++ e.FilePath := by
      simp [entryBytes, List.append_assoc]
    have hflen : (beBytes 8 e.HeaderOffset ++ (beBytes 8 e.FileSize ++
        (e.FileType :: beBytes 2 (e.FilePath.length % 2 ^ 16)))).length = 19 := by
      simp
    have hrest : entriesBytes (e :: es) ++ T =
        (beBytes 8 e.HeaderOffset ++ (beBytes 8 e.FileSize ++ (e.FileType ::
          beBytes 2 (e.FilePath.length % 2 ^ 16)))) ++
          (e.FilePath ++ (entriesBytes es ++ T)) := by
      simp [entriesBytes, entryBytes, List.append_assoc]
    have htail4 : 4 ≤ (entriesBytes es ++ T).length := by
      simp only [List.length_append]
      omega
    simp only [List.length_cons]
    rw [parseEntries]
    rw [if_neg (by
      rw [hrest]
      simp only [List.length_append, hflen]
      omega)]
    have htake : (entriesBytes (e :: es) ++ T).take 19 =
        beBytes 8 e.HeaderOffset ++ (beBytes 8 e.FileSize ++ (e.FileType ::
          beBytes 2 (e.FilePath.length % 2 ^ 16))) := by
      rw [hrest]
      exact List.take_left' hflen
    have hdrop : (entriesBytes (e :: es) ++ T).drop 19 =
        e.FilePath ++ (entriesBytes es ++ T) := by
      rw [hrest]
      exact List.drop_left' hflen
    simp only [htake, hdrop]
    have hoffs : beVal (sliceGet (beBytes 8 e.HeaderOffset ++
        (beBytes 8 e.FileSize ++ (e.FileType ::
          beBytes 2 (e.FilePath.length % 2 ^ 16)))) 0 8) = e.HeaderOffset := by
      rw [sliceGet_head (beBytes 8 e.HeaderOffset) _ _ (by simp)]
      exact beVal_beBytes_of_lt (by exact_mod_cast hoff)
    have hszs : beVal (sliceGet (beBytes 8 e.HeaderOffset ++
        (beBytes 8 e.FileSize ++ (e.FileType ::
          beBytes 2 (e.FilePath.length % 2 ^ 16)))) 8 8) = e.FileSize := by
      rw [show beBytes 8 e.HeaderOffset ++ (beBytes 8 e.FileSize ++
          (e.FileType :: beBytes 2 (e.FilePath.length % 2 ^ 16))) =
        beBytes 8 e.HeaderOffset ++ (beBytes 8 e.FileSize ++
          (e.FileType :: beBytes 2 (e.FilePath.length % 2 ^ 16))) from rfl]
      rw [sliceGet_at (beBytes 8 e.HeaderOffset) (beBytes 8 e.FileSize)
        (e.FileType :: beBytes 2 (e.FilePath.length % 2 ^ 16)) (by simp) (by simp)]
      exact beVal_beBytes_of_lt (by exact_mod_cast hsz)
    have htys : byteAt (beBytes 8 e.HeaderOffset ++ (beBytes 8 e.FileSize ++
        (e.FileType :: beBytes 2 (e.FilePath.length % 2 ^ 16)))) 16 =
        e.FileType := by
      rw [show beBytes 8 e.HeaderOffset ++ (beBytes 8 e.FileSize ++
          (e.FileType :: beBytes 2 (e.FilePath.length % 2 ^ 16))) =
        (beBytes 8 e.HeaderOffset ++ beBytes 8 e.FileSize) ++
          (e.FileType :: beBytes 2 (e.FilePath.length % 2 ^ 16)) from by
        simp [List.append_assoc]]
      exact byteAt_at _ _ _ (by simp)
    have hpls : beVal (sliceGet (beBytes 8 e.HeaderOffset ++
        (beBytes 8 e.FileSize ++ (e.FileType ::
          beBytes 2 (e.FilePath.length % 2 ^ 16)))) 17 2) =
        e.FilePath.length := by
      rw [show beBytes 8 e.HeaderOffset ++ (beBytes 8 e.FileSize ++
          (e.FileType :: beBytes 2 (e.FilePath.length % 2 ^ 16))) =
        (beBytes 8 e.HeaderOffset ++ (beBytes 8 e.FileSize ++ [e.FileType])) ++
          (beBytes 2 (e.FilePath.length % 2 ^ 16) ++ []) from by
        simp [List.append_assoc]]
      rw [sliceGet_at _ _ _ (by simp) (by simp)]
      rw [beVal_beBytes_of_lt (by
        have : e.FilePath.length % 2 ^ 16 < 2 ^ 16 := Nat.mod_lt _ (by norm_num)
        exact_mod_cast this)]
      exact Nat.mod_eq_of_lt hpl
    simp only [hoffs, hszs, htys, hpls]
    rw [if_neg (by
      simp only [List.length_append]
      omega)]
    rw [List.take_left, List.drop_left]
    rw [ih (fun e' he' => hval e' (List.mem_cons_of_mem e he'))
      (fun e' he' => hlen e' (List.mem_cons_of_mem e he')) (i + 1)]
    simp only [entryCons]

/-- Reading back a written manifest always passes the length, CRC, magic
and version checks and reaches the entry parser with the serialised
entries followed by trailer and CRC. -/
theorem readManifest_writeManifest_eq (es : List ManifestEntry)
    (hval : ∀ e ∈ es, e.GoValid) (hcount : es.length < 2 ^ 64) :
    readManifest (writeManifest es) =
      manifestFinish (parseEntries 0 (entriesBytes es ++
        (beBytes 4 manifestMagicNumber ++
          beBytes 4 (crc32 (manifestBody es)))) es.length) := by
  have hcrc := writeManifest_crc_slice es
  have htakebody := writeManifest_take es
  have hcrcval : crc32 (manifestBody es) < 2 ^ 32 :=
    crc32_lt (manifestBody_bytes_lt hval)
  have hbuflen : (writeManifest es).length =
      24 + (entriesBytes es).length := by
    simp [writeManifest, manifestBody]
    omega
  have hmagic : sliceGet (writeManifest es) 0 4 =
      beBytes 4 manifestMagicNumber := by
    rw [show writeManifest es = beBytes 4 manifestMagicNumber ++
      (beBytes 4 manifestVersion ++ (beBytes 8 es.length ++ (entriesBytes es ++
        (beBytes 4 manifestMagicNumber ++
          beBytes 4 (crc32 (manifestBody es)))))) from by
      simp [writeManifest, manifestBody, List.append_assoc]]
    exact sliceGet_head _ _ _ (by simp)
  have hver : sliceGet (writeManifest es) 4 4 =
      beBytes 4 manifestVersion := by
    rw [show writeManifest es = beBytes 4 manifestMagicNumber ++
      (beBytes 4 manifestVersion ++ (beBytes 8 es.length ++ (entriesBytes es ++
        (beBytes 4 manifestMagicNumber ++
          beBytes 4 (crc32 (manifestBody es)))))) from by
      simp [writeManifest, manifestBody, List.append_assoc]]
    exact sliceGet_at _ _ _ (by simp) (by simp)
  have hcnt : sliceGet (writeManifest es) 8 8 = beBytes 8 es.length := by
    rw [show writeManifest es = (beBytes 4 manifestMagicNumber ++
      beBytes 4 manifestVersion) ++ (beBytes 8 es.length ++ (entriesBytes es ++
        (beBytes 4 manifestMagicNumber ++
          beBytes 4 (crc32 (manifestBody es))))) from by
      simp [writeManifest, manifestBody, List.append_assoc]]
    exact sliceGet_at _ _ _ (by simp) (by simp)
  have hdrop16 : (writeManifest es).drop 16 = entriesBytes es ++
      (beBytes 4 manifestMagicNumber ++ beBytes 4 (crc32 (manifestBody es))) := by
    rw [show writeManifest es = (beBytes 4 manifestMagicNumber ++
      (beBytes 4 manifestVersion ++ beBytes 8 es.length)) ++ (entriesBytes es ++
        (beBytes 4 manifestMagicNumber ++
          beBytes 4 (crc32 (manifestBody es)))) from by
      simp [writeManifest, manifestBody, List.append_assoc]]
    exact List.drop_left' (by simp)
  unfold readManifest
  rw [if_neg (by omega)]
  rw [hcrc, htakebody]
  rw [if_neg (by
    rw [beVal_beBytes_of_lt (lt_of_lt_of_le hcrcval (by norm_num))]
    simp)]
  rw [hmagic, hver, hcnt]
  rw [if_neg (by
    rw [beVal_beBytes_of_lt (by norm_num [manifestMagicNumber])]
    simp)]
  rw [if_neg (by
    rw [beVal_beBytes_of_lt (by norm_num [manifestVersion])]
    simp)]
  rw [beVal_beBytes_of_lt (by exact_mod_cast hcount)]
  rw [hdrop16]

/-- The trailer magic reads back as itself. -/
theorem manifest_trailer_beVal (es : List ManifestEntry) :
    beVal (sliceGet (beBytes 4 manifestMagicNumber ++
      beBytes 4 (crc32 (manifestBody es))) 0 4) = manifestMagicNumber := by
  rw [sliceGet_head _ _ _ (by simp)]
  exact beVal_beBytes_of_lt (by norm_num [manifestMagicNumber])

/-- C4 (amended): for every list of entries within the Go field ranges
whose paths are shorter than 65536 bytes (the capacity of the 2-byte
length field), `readManifest ∘ writeManifest` returns the same entries in
order, and the trailing 4 bytes are the CRC32/IEEE of every preceding
byte. -/
theorem c4_manifest_roundtrip (es : List ManifestEntry)
    (hval : ∀ e ∈ es, e.GoValid)
    (hlen : ∀ e ∈ es, e.FilePath.length < 2 ^ 16)
    (hcount : es.length < 2 ^ 64) :
    readManifest (writeManifest es) = .ok es ∧
    sliceGet (writeManifest es) ((writeManifest es).length - 4) 4 =
      beBytes 4 (crc32 ((writeManifest es).take
        ((writeManifest es).length - 4))) := by
  refine ⟨?_, by rw [writeManifest_crc_slice, writeManifest_take]⟩
  rw [readManifest_writeManifest_eq es hval hcount]
  rw [parseEntries_entriesBytes es (beBytes 4 manifestMagicNumber ++
    beBytes 4 (crc32 (manifestBody es))) (by simp) hval hlen 0]
  simp [manifestFinish, manifest_trailer_beVal]

/-- C4 (counterexample): the round trip does not hold for every list of
`ManifestEntry` values — a single entry whose path is 65536 bytes long
has its 2-byte length field wrap to 0 (`uint16(len)`), so the reader
parses an empty path, mistakes the path bytes for the trailer, and fails
with an invalid-trailer error instead of returning the entry
(`beVal [97,97,97,97] = 1633771873`). -/
theorem c4_manifest_roundtrip_counterexample :
    readManifest (writeManifest [⟨0, 0, 0, List.replicate 65536 97⟩]) =
      .error (.badTrailer 1633771873) ∧
    readManifest (writeManifest [⟨0, 0, 0, List.replicate 65536 97⟩]) ≠
      .ok [⟨0, 0, 0, List.replicate 65536 97⟩] := by
  have hval : ∀ e ∈ [(⟨0, 0, 0, List.replicate 65536 97⟩ : ManifestEntry)],
      e.GoValid := by
    intro e he
    rw [List.mem_singleton] at he
    subst he
    refine ⟨by norm_num, by norm_num, by norm_num, ?_⟩
    intro b hb
    rw [List.eq_of_mem_replicate hb]
    norm_num
  have hmain : readManifest (writeManifest [⟨0, 0, 0, List.replicate 65536 97⟩]) =
      .error (.badTrailer 1633771873) := by
    have hc1 : ([(⟨0, 0, 0, List.replicate 65536 97⟩ : ManifestEntry)]).length <
        2 ^ 64 := by
      rw [List.length_singleton]
      norm_num
    rw [readManifest_writeManifest_eq _ hval hc1]
    have hF : entriesBytes [(⟨0, 0, 0, List.replicate 65536 97⟩ : ManifestEntry)] ++
        (beBytes 4 manifestMagicNumber ++
          beBytes 4 (crc32 (manifestBody [⟨0, 0, 0, List.replicate 65536 97⟩]))) =
        (beBytes 8 0 ++ (beBytes 8 0 ++ (0 ::
          beBytes 2 ((List.replicate 65536 97).length % 2 ^ 16)))) ++
          (List.replicate 65536 97 ++ (beBytes 4 manifestMagicNumber ++
            beBytes 4 (crc32 (manifestBody [⟨0, 0, 0, List.replicate 65536 97⟩])))) := by
      simp only [entriesBytes, entryBytes, List.append_assoc, List.append_nil,
        List.cons_append, List.nil_append]
    rw [show ([(⟨0, 0, 0, List.replicate 65536 97⟩ : ManifestEntry)]).length = 0 + 1
      from by rw [List.length_singleton]]
    rw [hF]
    rw [parseEntries]
    rw [if_neg (by
      simp only [List.length_append, List.length_cons, List.length_replicate,
        beBytes_length]
      omega)]
    have hflen : (beBytes 8 0 ++ (beBytes 8 0 ++ (0 ::
        beBytes 2 ((List.replicate 65536 97).length % 2 ^ 16)))).length = 19 := by
      simp only [List.length_append, List.length_cons, beBytes_length]
    rw [List.take_left' hflen, List.drop_left' hflen]
    have hpls : beVal (sliceGet (beBytes 8 0 ++ (beBytes 8 0 ++ (0 ::
        beBytes 2 ((List.replicate 65536 97).length % 2 ^ 16)))) 17 2) = 0 := by
      rw [show beBytes 8 0 ++ (beBytes 8 0 ++ (0 ::
          beBytes 2 ((List.replicate 65536 97).length % 2 ^ 16))) =
        (beBytes 8 0 ++ (beBytes 8 0 ++ [0])) ++
          (beBytes 2 ((List.replicate 65536 97).length % 2 ^ 16) ++ []) from by
        simp only [List.append_assoc, List.cons_append, List.append_nil,
          List.nil_append]]
      rw [sliceGet_at _ _ _
        (by simp only [List.length_append, List.length_cons, List.length_nil,
          beBytes_length])
        (by simp only [beBytes_length])]
      rw [show (List.replicate 65536 97).length % 2 ^ 16 = 0 from by
        rw [List.length_replicate]; norm_num]
      rw [beVal_beBytes_of_lt (by norm_num)]
    simp only [hpls]
    rw [if_neg (by
      simp only [List.length_append, List.length_replicate, beBytes_length]
      omega)]
    rw [List.take_zero, List.drop_zero]
    rw [parseEntries]
    have hrem8 : ¬(List.replicate 65536 97 ++ (beBytes 4 manifestMagicNumber ++
        beBytes 4 (crc32 (manifestBody [⟨0, 0, 0, List.replicate 65536 97⟩])))).length
          < 8 := by
      simp only [List.length_append, List.length_replicate, beBytes_length]
      omega
    have htrail : beVal (sliceGet (List.replicate 65536 97 ++
        (beBytes 4 manifestMagicNumber ++ beBytes 4 (crc32
          (manifestBody [⟨0, 0, 0, List.replicate 65536 97⟩])))) 0 4) =
        1633771873 := by
      rw [show (List.replicate 65536 97 : List Nat) =
        List.replicate 4 97 ++ List.replicate 65532 97 from by
        rw [show (65536 : Nat) = 4 + 65532 from by norm_num, List.replicate_add]]
      rw [List.append_assoc]
      rw [sliceGet_head (List.replicate 4 97) _ _ (by simp)]
      decide
    simp only [entryCons, manifestFinish]
    rw [if_neg hrem8, htrail]
    rw [if_pos (by norm_num [manifestMagicNumber])]
  exact ⟨hmain, by rw [hmain]; exact fun h => Except.noConfusion h⟩

/-- C4 witness: two concrete entries (one with an empty path) round-trip
with the CRC in the trailing 4 bytes. -/
theorem c4_manifest_roundtrip_witness :
    readManifest (writeManifest [⟨0, 3, 0, [97, 46, 116]⟩, ⟨527, 0, 1, []⟩]) =
      .ok [⟨0, 3, 0, [97, 46, 116]⟩, ⟨527, 0, 1, []⟩] ∧
    sliceGet (writeManifest [⟨0, 3, 0, [97, 46, 116]⟩, ⟨527, 0, 1, []⟩])
        ((writeManifest [⟨0, 3, 0, [97, 46, 116]⟩, ⟨527, 0, 1, []⟩]).length - 4) 4 =
      beBytes 4 (crc32 ((writeManifest [⟨0, 3, 0, [97, 46, 116]⟩, ⟨527, 0, 1, []⟩]).take
        ((writeManifest [⟨0, 3, 0, [97, 46, 116]⟩, ⟨527, 0, 1, []⟩]).length - 4))) :=
  c4_manifest_roundtrip [⟨0, 3, 0, [97, 46, 116]⟩, ⟨527, 0, 1, []⟩]
    (by decide) (by decide) (by norm_num)

/-- C9 witness: ceiling 3 accepts a 3-byte chunk and rejects a declared
length of 4 even with no payload present. -/
theorem c9_chunk_size_ceiling_witness :
    readChunks 3 (beBytes 4 chunkMagicNumber ++ (beBytes 8 3 ++
      ([1, 2, 3] ++ []))) 3 = .ok ([1, 2, 3], []) ∧
    readChunks 3 (beBytes 4 chunkMagicNumber ++ (beBytes 8 4 ++ [])) 1 =
      .error (.badLength 4) := by
  obtain ⟨h1, h2⟩ := c9_chunk_size_ceiling
  exact ⟨h1 3 [1, 2, 3] [] (by decide) (by decide) (by norm_num),
    h2 3 4 1 [] (by decide) (by decide) (by norm_num)⟩

/-! ## Theorems: the file-system walker -/

theorem strContains_mono (p s e : String) (h : strContains p e = true) :
    strContains (p ++ s) e = true := by
  simp only [strContains, decide_eq_true_eq] at h ⊢
  rw [String.data_append]
  exact h.trans ((List.prefix_append _ _).isInfix)

theorem filter_excluded (ex : List String) (path : String)
    (l : List (String × String))
    (hex : ex.any (fun e => strContains path e) = true)
    (hl : ∀ rp ∈ l, ∃ s, rp.2 = path ++ s) :
    l.filter (fun rp => !ex.any (fun e => strContains rp.2 e)) = [] := by
  rw [List.filter_eq_nil_iff]
  intro rp hrp
  obtain ⟨s, hs⟩ := hl rp hrp
  obtain ⟨e, he, hce⟩ := List.any_eq_true.mp hex
  have hany : ex.any (fun e2 => strContains rp.2 e2) = true :=
    List.any_eq_true.mpr ⟨e, he, by rw [hs]; exact strContains_mono path s e hce⟩
  simp [hany]

mutual

theorem relsNode_ext (rel path : String) (t : FTree) :
    ∀ rp ∈ relsNode rel path t, ∃ s, rp.2 = path ++ s := by
  cases t with
  | file =>
    intro rp hrp
    rw [relsNode] at hrp
    split at hrp
    · cases hrp
    · rw [List.mem_singleton] at hrp
      subst hrp
      exact ⟨"", (String.append_empty path).symm⟩
  | dir cs =>
    intro rp hrp
    rw [relsNode, List.mem_append] at hrp
    rcases hrp with h | h
    · split at h
      · cases h
      · rw [List.mem_singleton] at h
        subst h
        exact ⟨"", (String.append_empty path).symm⟩
    · exact relsChildren_ext rel path cs rp h

theorem relsChildren_ext (rel path : String) (f : FForest) :
    ∀ rp ∈ relsChildren rel path f, ∃ s, rp.2 = path ++ s := by
  cases f with
  | nil => intro rp hrp; cases hrp
  | cons n c rest =>
    intro rp hrp
    rw [relsChildren, List.mem_append] at hrp
    rcases hrp with h | h
    · obtain ⟨s, hs⟩ := relsNode_ext (childRel rel n) (path ++ "/" ++ n) c rp h
      exact ⟨"/" ++ n ++ s, by rw [hs]; simp [String.append_assoc]⟩
    · exact relsChildren_ext rel path rest rp h

end

mutual

theorem walkNode_filter (ex : List String) (rel path : String) (t : FTree) :
    walkNode ex rel path t =
      ((relsNode rel path t).filter
        (fun rp => !ex.any (fun e => strContains rp.2 e))).map Prod.fst := by
  cases t with
  | file =>
    rw [walkNode, relsNode]
    by_cases hex : ex.any (fun e => strContains path e) = true
    · rw [if_pos hex]
      by_cases hrel : rel = "."
      · simp [hrel]
      · simp [hrel, List.filter_cons, hex]
    · rw [if_neg hex]
      rw [Bool.not_eq_true] at hex
      by_cases hrel : rel = "."
      · simp [hrel]
      · simp [hrel, List.filter_cons, hex]
  | dir cs =>
    rw [walkNode, relsNode, List.filter_append, List.map_append]
    by_cases hex : ex.any (fun e => strContains path e) = true
    · rw [if_pos hex,
        filter_excluded ex path _ hex (relsChildren_ext rel path cs),
        List.map_nil, List.append_nil]
      by_cases hrel : rel = "."
      · simp [hrel]
      · simp [hrel, List.filter_cons, hex]
    · rw [if_neg hex, walkChildren_filter ex rel path cs]
      rw [Bool.not_eq_true] at hex
      by_cases hrel : rel = "."
      · simp [hrel]
      · simp [hrel, List.filter_cons, hex]

theorem walkChildren_filter (ex : List String) (rel path : String)
    (f : FForest) :
    walkChildren ex rel path f =
      ((relsChildren rel path f).filter
        (fun rp => !ex.any (fun e => strContains rp.2 e))).map Prod.fst := by
  cases f with
  | nil => rfl
  | cons n c rest =>
    rw [walkChildren, relsChildren, List.filter_append, List.map_append,
      walkNode_filter ex (childRel rel n) (path ++ "/" ++ n) c,
      walkChildren_filter ex rel path rest]

end

/-- C5: corrected. `BuildRelativeFileList` emits, in walk order, the
relative paths of the entries reachable strictly below the root (never the
root itself, which `relsNode` omits by construction), but the exclusion
substrings are tested against each entry's *walked* path — the absolute
path that extends the root — not against its relative path, so the result
depends on the absolute location of the root on disk. -/
theorem c5_exclusion_tests_walked_path (root : String) (t : FTree)
    (ex : List String) :
    BuildRelativeFileList root t ex =
      ((relsNode "." root t).filter
        (fun rp => !ex.any (fun e => strContains rp.2 e))).map Prod.fst ∧
    ∀ rp ∈ relsNode "." root t, ∃ s, rp.2 = root ++ s :=
  ⟨walkNode_filter ex "." root t, relsNode_ext "." root t⟩

/-- C5 witness: a concrete root with one file; the filter characterization
holds and the entry's walked path extends the root. -/
theorem c5_exclusion_tests_walked_path_witness :
    BuildRelativeFileList "/tmp/r" (.dir (.cons "b" .file .nil)) ["x"] =
      ((relsNode "." "/tmp/r" (.dir (.cons "b" .file .nil))).filter
        (fun rp => !(["x"].any (fun e => strContains rp.2 e)))).map Prod.fst ∧
    ("b", "/tmp/r/b") ∈ relsNode "." "/tmp/r" (.dir (.cons "b" .file .nil)) ∧
    ∃ s, (("b", "/tmp/r/b") : String × String).2 = "/tmp/r" ++ s :=
  ⟨(c5_exclusion_tests_walked_path "/tmp/r" (.dir (.cons "b" .file .nil))
      ["x"]).1,
   by decide,
   (c5_exclusion_tests_walked_path "/tmp/r" (.dir (.cons "b" .file .nil))
      ["x"]).2 ("b", "/tmp/r/b") (by decide)⟩

/-- C5 counterexample: with root `/tmp/exepy` holding a single file `a`,
excluding the substring `epy` removes everything — the substring matches
the absolute root path — while the walker the specification describes
(exclusions tested against relative paths) keeps `a`. -/
theorem c5_exclusion_tests_walked_path_counterexample :
    BuildRelativeFileList "/tmp/exepy" (.dir (.cons "a" .file .nil)) ["epy"]
      = [] ∧
    specBuildRelativeFileList "/tmp/exepy" (.dir (.cons "a" .file .nil))
      ["epy"] = ["a"] ∧
    BuildRelativeFileList "/tmp/exepy" (.dir (.cons "a" .file .nil)) ["epy"]
      ≠ specBuildRelativeFileList "/tmp/exepy" (.dir (.cons "a" .file .nil))
        ["epy"] :=
  ⟨by decide, by decide, by decide⟩

/-! ## Theorems: decoder recovery and decoding -/

theorem windowRoll_cons (w b : Nat) (l : List Nat) :
    windowRoll w (b :: l) = windowRoll ((w % 2 ^ 24) * 2 ^ 8 + b) l := by
  simp [windowRoll]

theorem drop_take_succ (data : List Nat) (pos m : Nat)
    (h : pos < data.length) :
    (data.drop pos).take (m + 1) =
      data.getD pos 0 :: ((data.drop (pos + 1)).take m) := by
  rw [List.drop_eq_getElem_cons h, List.take_succ_cons,
    List.getD_eq_getElem data 0 h]

theorem recoverLoop_hit (seekable : Bool) (data : List Nat) :
    ∀ (k fuel w pos : Nat), pos + k < data.length →
      data.length - pos ≤ fuel →
      windowRoll w ((data.drop pos).take (k + 1)) = magicNumber →
      (∀ j < k, windowRoll w ((data.drop pos).take (j + 1)) ≠ magicNumber) →
      recoverLoop seekable data fuel w pos =
        if seekable then .ok (pos + k + 1 - (chunkHeaderSize - 4))
        else .notSeekable (pos + k + 1) := by
  intro k
  induction k with
  | zero =>
    intro fuel w pos hk hfuel hhit _
    cases fuel with
    | zero => omega
    | succ f =>
      have hpos : pos < data.length := by omega
      rw [drop_take_succ data pos 0 hpos] at hhit
      simp only [windowRoll, List.take_zero, List.foldl_cons,
        List.foldl_nil] at hhit
      rw [recoverLoop, if_pos hpos, if_pos hhit]
  | succ k ih =>
    intro fuel w pos hk hfuel hhit hfirst
    cases fuel with
    | zero => omega
    | succ f =>
      have hpos : pos < data.length := by omega
      have h0 : (w % 2 ^ 24) * 2 ^ 8 + data.getD pos 0 ≠ magicNumber := by
        have h0' := hfirst 0 (by omega)
        rw [drop_take_succ data pos 0 hpos] at h0'
        simpa only [windowRoll, List.take_zero, List.foldl_cons,
          List.foldl_nil] using h0'
      rw [recoverLoop, if_pos hpos, if_neg h0]
      rw [drop_take_succ data pos (k + 1) hpos, windowRoll_cons] at hhit
      have hrest : ∀ j < k,
          windowRoll ((w % 2 ^ 24) * 2 ^ 8 + data.getD pos 0)
            ((data.drop (pos + 1)).take (j + 1)) ≠ magicNumber := by
        intro j hj
        have := hfirst (j + 1) (by omega)
        rw [drop_take_succ data pos (j + 1) hpos, windowRoll_cons] at this
        exact this
      rw [ih f ((w % 2 ^ 24) * 2 ^ 8 + data.getD pos 0) (pos + 1)
        (by omega) (by omega) hhit hrest]
      rw [show pos + 1 + k = pos + (k + 1) from by omega]

theorem recoverLoop_eof (seekable : Bool) (data : List Nat) :
    ∀ (fuel w pos : Nat),
      (∀ j, pos + j < data.length →
        windowRoll w ((data.drop pos).take (j + 1)) ≠ magicNumber) →
      recoverLoop seekable data fuel w pos = .eof := by
  intro fuel
  induction fuel with
  | zero => intro w pos _; rfl
  | succ f ih =>
    intro w pos hmiss
    rw [recoverLoop]
    by_cases hpos : pos < data.length
    · have h0 : (w % 2 ^ 24) * 2 ^ 8 + data.getD pos 0 ≠ magicNumber := by
        have h0' := hmiss 0 (by omega)
        rw [drop_take_succ data pos 0 hpos] at h0'
        simpa only [windowRoll, List.take_zero, List.foldl_cons,
          List.foldl_nil] using h0'
      rw [if_pos hpos, if_neg h0]
      refine ih _ (pos + 1) (fun j hj => ?_)
      have := hmiss (j + 1) (by omega)
      rw [drop_take_succ data pos (j + 1) hpos, windowRoll_cons] at this
      exact this
    · rw [if_neg hpos]

set_option maxRecDepth 40000 in
/-- C6: corrected. The recovery scan does read the stream byte-by-byte
with a rolling 4-byte window (stopping at the first position where the
window equals the decoder's `magicNumber`, and seeking back
`chunkHeaderSize - 4` bytes when the reader it was handed seeks; a scan
that exhausts the stream reports `io.EOF`).  But on a non-seekable
reader — which `Decode` always hands it, passing its `bufio` wrapper —
the resulting error is fatal only in strict mode: in non-strict mode the
decoder abandons the current file and continues with the next record,
returning success. -/
theorem c6_recovery_window_scan :
    (∀ (data : List Nat) (pos k : Nat),
      pos + k < data.length →
      windowRoll magicNumber ((data.drop pos).take (k + 1)) = magicNumber →
      (∀ j < k,
        windowRoll magicNumber ((data.drop pos).take (j + 1)) ≠
          magicNumber) →
      recoverFrom true data pos = .ok (pos + k + 1 - (chunkHeaderSize - 4)) ∧
      recoverFrom false data pos = .notSeekable (pos + k + 1)) ∧
    (∀ (seekable : Bool) (data : List Nat) (pos : Nat),
      (∀ j, pos + j < data.length →
        windowRoll magicNumber ((data.drop pos).take (j + 1)) ≠
          magicNumber) →
      recoverFrom seekable data pos = .eof) ∧
    decodeGo false true DefaultChunkSize "/dest" recoveryStream =
      (.error .recoveryFailed, [.mkdirAll "/dest", .create "/dest/a"]) ∧
    decodeGo false false DefaultChunkSize "/dest" recoveryStream =
      (.ok (), [.mkdirAll "/dest", .create "/dest/a", .mkdirAll "/dest",
        .mkdirAll "/dest/d"]) := by
  refine ⟨fun data pos k hk hhit hfirst => ?_,
    fun seekable data pos hmiss =>
      recoverLoop_eof seekable data (data.length - pos) magicNumber pos hmiss,
    by decide, by decide⟩
  have h1 := recoverLoop_hit true data k (data.length - pos) magicNumber pos
    hk (by omega) hhit hfirst
  have h2 := recoverLoop_hit false data k (data.length - pos) magicNumber pos
    hk (by omega) hhit hfirst
  exact ⟨by simpa using h1, by simpa using h2⟩

set_option maxRecDepth 40000 in
/-- C6 witness: at the corrupted chunk of `recoveryStream` the window
matches after the four bytes `DE AD BE EF` (cursor 524..527): a seekable
reader would be rewound to 520, a non-seekable one fails at 528. -/
theorem c6_recovery_window_scan_witness :
    (524 + 3 < recoveryStream.length ∧
      windowRoll magicNumber ((recoveryStream.drop 524).take 4) =
        magicNumber ∧
      (∀ j < 3, windowRoll magicNumber
        ((recoveryStream.drop 524).take (j + 1)) ≠ magicNumber)) ∧
    recoverFrom true recoveryStream 524 = .ok 520 ∧
    recoverFrom false recoveryStream 524 = .notSeekable 528 := by
  have h := c6_recovery_window_scan.1 recoveryStream 524 3 (by decide)
    (by decide) (by decide)
  exact ⟨⟨by decide, by decide, by decide⟩,
    by simpa [chunkHeaderSize] using h.1, by simpa using h.2⟩

set_option maxRecDepth 40000 in
/-- C6 counterexample: the recovery failure on a non-seekable stream is
not fatal in non-strict mode — the decoder abandons file `a`, decodes
directory `d`, and returns success.  Moreover the scan looks for
`magicNumber` (`DE AD BE EF`), not for the `chunkMagicNumber`
(`9A BC DE FF`) the chunk writer emits: a stream holding exactly the
chunk magic is never found, while the decoder's own constant is. -/
theorem c6_recovery_window_scan_counterexample :
    decodeGo false false DefaultChunkSize "/dest" recoveryStream =
      (.ok (), [.mkdirAll "/dest", .create "/dest/a", .mkdirAll "/dest",
        .mkdirAll "/dest/d"]) ∧
    recoverFrom false recoveryStream 524 = .notSeekable 528 ∧
    recoverFrom false (beBytes 4 chunkMagicNumber) 0 = .eof ∧
    recoverFrom false (beBytes 4 magicNumber) 0 = .notSeekable 4 :=
  ⟨by decide, by decide, by decide, by decide⟩

set_option maxRecDepth 40000 in
/-- C1: contrary to the claim, `Decode` never path-checks the header's
relative path: decoding a crafted single-header stream carrying
`../etc/passwd` (a regular file of size 0) succeeds with no
path-safety error and creates `/etc/passwd`, outside the destination
`/dest` — even though the repository's own `sanitizePath`, which
`Decode` never calls, rejects exactly that path. -/
theorem c1_decoder_path_traversal :
    decodeGo false true DefaultChunkSize "/dest"
      (HeaderPlain.writeBody
        ⟨1, [46, 46, 47, 101, 116, 99, 47, 112, 97, 115, 115, 119, 100],
          0, 420, 0, 0, []⟩) =
      (.ok (), [.mkdirAll "/etc", .create "/etc/passwd"]) ∧
    strHasPrefix "/etc/passwd" "/dest/" = false ∧
    sanitizePath "/dest" "../etc/passwd" = .error .notUnderDest :=
  ⟨by decide, by decide, by decide⟩

set_option maxRecDepth 40000 in
/-- C7: a stream truncated in the middle of a chunk — a regular file
declaring 3 bytes followed by only the first 5 bytes of its chunk
header — decodes in strict mode to success: the short header read
consumes the remainder, recovery hits end-of-stream, and `Decode`
turns that `io.EOF` into `return nil`. -/
theorem c7_truncated_chunk_strict_success :
    decodeGo false true DefaultChunkSize "/dest"
      (HeaderPlain.writeBody ⟨1, [97], 3, 420, 0, 0, []⟩ ++
        [154, 188, 222, 255, 0]) =
      (.ok (), [.mkdirAll "/dest", .create "/dest/a"]) := by
  decide

/-- C2: the encoder streams the records, in the supplied order, and
nothing after the last one — the manifest write after the walk is
commented out.  The stream the spec describes carries exactly one
trailing manifest block more, so the two always differ on a completed
walk. -/
theorem c2_encoder_never_writes_manifest (cs : Nat)
    (entries : List EncEntry) (h : (encodeRecords cs entries).2 = true) :
    (specEncodeStream cs entries).1 =
      (encodeGo cs entries).1 ++ writeManifest (manifestAcc cs 0 entries) ∧
    (encodeGo cs entries).1 ≠ (specEncodeStream cs entries).1 := by
  have hA : (specEncodeStream cs entries).1 =
      (encodeGo cs entries).1 ++ writeManifest (manifestAcc cs 0 entries) := by
    simp only [specEncodeStream, encodeGo, h, if_true]
  refine ⟨hA, fun heq => ?_⟩
  have hlen := congrArg List.length (heq.trans hA)
  simp only [List.length_append] at hlen
  have hm : (writeManifest (manifestAcc cs 0 entries)).length ≠ 0 := by
    simp only [writeManifest, manifestBody, List.length_append,
      beBytes_length]
    omega
  exact hm (by omega)

set_option maxRecDepth 40000 in
/-- C2 witness: encoding a single 3-byte regular file `a.txt` streams
its header and one chunk and stops; the spec's stream appends the
one-entry manifest block, so the two differ. -/
theorem c2_encoder_never_writes_manifest_witness :
    (encodeRecords DefaultChunkSize
      [.fileE [97, 46, 116, 120, 116] 420 0 [97, 98, 99]]).2 = true ∧
    (specEncodeStream DefaultChunkSize
      [.fileE [97, 46, 116, 120, 116] 420 0 [97, 98, 99]]).1 =
      (encodeGo DefaultChunkSize
        [.fileE [97, 46, 116, 120, 116] 420 0 [97, 98, 99]]).1 ++
        writeManifest (manifestAcc DefaultChunkSize 0
          [.fileE [97, 46, 116, 120, 116] 420 0 [97, 98, 99]]) ∧
    (encodeGo DefaultChunkSize
      [.fileE [97, 46, 116, 120, 116] 420 0 [97, 98, 99]]).1 ≠
      (specEncodeStream DefaultChunkSize
        [.fileE [97, 46, 116, 120, 116] 420 0 [97, 98, 99]]).1 :=
  ⟨by decide,
    (c2_encoder_never_writes_manifest DefaultChunkSize
      [.fileE [97, 46, 116, 120, 116] 420 0 [97, 98, 99]] (by decide)).1,
    (c2_encoder_never_writes_manifest DefaultChunkSize
      [.fileE [97, 46, 116, 120, 116] 420 0 [97, 98, 99]] (by decide)).2⟩

end Dirstream
